import Mathlib

/-!
Verification development for the tabular data-processing engine of the
ai-data-analyst repository (src/services/dataProcessing.ts).

The engine is shallowly embedded: each exported function of
dataProcessing.ts becomes a Lean definition over an explicit value model.
JavaScript numbers are modelled by the rationals, with NaN as a separate
constructor (IEEE rounding is abstracted away; none of the verified
properties depend on rounding).  JavaScript builtins that the source
calls (string-to-number parsing beyond the trivial cases, Date parsing,
toISOString, number formatting, Math.sqrt, Math.log) are abstracted into
a JsEnv record of uninterpreted functions, so theorems quantify over
every possible behaviour of those builtins; concrete witnesses use a
small executable instantiation.

Rows are JavaScript objects: insertion-ordered association lists from
key to value.  Property update keeps the position of an existing key and
appends a fresh key, exactly as JS object assignment does; property
deletion removes the key.  Reading an absent key yields undefined.

performDataCleaning in the source copies the row ARRAY but not the row
objects, so drop_column, impute fills and cast_type mutate the rows of
the input dataset in place.  The embedding makes this aliasing explicit:
the cleaning state carries both the working array (entries tagged with
the index of the original row object they alias, if any) and the current
contents of the original row objects, and returns the latter next to the
rebuilt dataset so that theorems can talk about what the caller's
dataset looks like after the call.
-/

namespace DataEngine

/-- Scalar cell values of the JS engine: number, NaN, string, boolean,
null and undefined (an absent property reads as undefined). -/
inductive Value where
  | null : Value
  | undef : Value
  | num : ℚ → Value
  | nan : Value
  | bool : Bool → Value
  | str : String → Value
deriving DecidableEq, Repr

/-- Uninterpreted JS builtins used by dataProcessing.ts.  strToNumber
models Number(s) on a non-whitespace-only string (none = NaN); dateParse
models Date.parse (none = NaN); dateToIso models
new Date(s).toISOString() (none = the RangeError thrown on an invalid
date); numToString models JS number-to-string formatting; sqrt and log
model Math.sqrt and Math.log on the rational approximation. -/
structure JsEnv where
  strToNumber : String → Option ℚ
  dateParse : String → Option ℚ
  dateToIso : String → Option String
  numToString : ℚ → String
  sqrt : ℚ → ℚ
  log : ℚ → ℚ

/-- JS String(v) conversion. -/
def jsString (env : JsEnv) : Value → String
  | .null => "null"
  | .undef => "undefined"
  | .nan => "NaN"
  | .bool b => if b then "true" else "false"
  | .num q => env.numToString q
  | .str s => s

/-- Whitespace trimming of ECMAScript ToNumber, modelled directly over
the character list so that it evaluates inside the kernel. -/
def jsTrim (s : String) : String :=
  String.mk (((s.toList.dropWhile Char.isWhitespace).reverse.dropWhile
    Char.isWhitespace).reverse)

/-- JS Number(v) coercion; none stands for NaN.  Number(null) = 0,
Number(undefined) = NaN, Number(true) = 1, Number(false) = 0, and a
string that is empty or whitespace-only converts to 0 (ECMAScript
ToNumber); other strings go through the abstract parser. -/
def jsToNumber (env : JsEnv) : Value → Option ℚ
  | .null => some 0
  | .undef => none
  | .nan => none
  | .num q => some q
  | .bool b => some (if b then 1 else 0)
  | .str s => if jsTrim s = "" then some 0 else env.strToNumber s

/-- JS boolean coercion (the test in val ? a : b). -/
def truthy : Value → Bool
  | .null => false
  | .undef => false
  | .nan => false
  | .num q => decide (q ≠ 0)
  | .bool b => b
  | .str s => decide (s ≠ "")

/-- A row object: insertion-ordered association list with unique keys. -/
def DataRow : Type := List (String × Value)

instance : DecidableEq DataRow := by
  unfold DataRow
  exact inferInstance

instance : Repr DataRow := by
  unfold DataRow
  exact inferInstance

/-- Property read r[k]; an absent key reads as undefined. -/
def rowGet (r : DataRow) (k : String) : Value :=
  match r.find? (fun p => p.1 = k) with
  | some p => p.2
  | none => Value.undef

/-- Property write r[k] = v: an existing key keeps its position, a fresh
key is appended, as in JS object assignment. -/
def rowSet (r : DataRow) (k : String) (v : Value) : DataRow :=
  match r with
  | [] => [(k, v)]
  | (k0, v0) :: rest =>
      if k0 = k then (k, v) :: rest else (k0, v0) :: rowSet rest k v

/-- Property deletion (the delete operator). -/
def rowDelete (r : DataRow) (k : String) : DataRow :=
  r.filter (fun p => p.1 ≠ k)

/-- The object keys, in insertion order (Object.keys). -/
def rowKeys (r : DataRow) : List String :=
  r.map (fun p => p.1)

/-- Missing cell: null, undefined or the empty string (the check
v === null || v === undefined || v === '' used throughout the source). -/
def isMissing : Value → Bool
  | .null => true
  | .undef => true
  | .str s => decide (s = "")
  | _ => false

/-- Lexicographic comparison of character lists by code point, the
order JS string comparison induces on the basic plane. -/
def charListLe : List Char → List Char → Bool
  | [], _ => true
  | _ :: _, [] => false
  | a :: as, b :: bs =>
      if a = b then charListLe as bs else decide (a < b)

/-- JS string less-or-equal. -/
def strLe (a b : String) : Bool :=
  charListLe a.toList b.toList

/-- Insert into a sorted list, in front of the first element the new
one compares le to, so that an element inserted earlier stays in front
of comparator-equal elements. -/
def insertLe {α : Type} (le : α → α → Bool) (x : α) : List α → List α
  | [] => [x]
  | y :: ys => if le x y then x :: y :: ys else y :: insertLe le x ys

/-- Stable insertion sort.  A stable sort by a total comparator has a
unique result, so this models the stable Array.prototype.sort of the
source for every comparator the source passes. -/
def stableSort {α : Type} (le : α → α → Bool) : List α → List α
  | [] => []
  | x :: xs => insertLe le x (stableSort le xs)

/-- Column types of the engine (the ColumnType enumeration). -/
inductive ColumnType where
  | Number | String | Date | Boolean | Mixed | Unknown
deriving DecidableEq, Repr

/-- Internal category a single value falls into inside identifyType;
none = the value is skipped as missing. -/
inductive ValueCat where
  | numish | boolish | dateish | strish
deriving DecidableEq, Repr

/-- The else-if chain of identifyType applied to one value: missing
values are skipped; a number (NaN included, since typeof NaN is number)
counts as numeric; a native boolean as boolean; a remaining string
counts as numeric when Number(v) is not NaN and v is nonempty, as a date
when Date.parse succeeds and the length exceeds 5, else as text. -/
def classifyValue (env : JsEnv) (v : Value) : Option ValueCat :=
  if isMissing v then none
  else
    match v with
    | .num _ => some .numish
    | .nan => some .numish
    | .bool _ => some .boolish
    | .str s =>
        if (jsToNumber env (.str s)).isSome ∧ s ≠ "" then some .numish
        else if (env.dateParse s).isSome ∧ s.length > 5 then some .dateish
        else some .strish
    | .null => none
    | .undef => none

/-- Count of values in a given category. -/
def catCount (env : JsEnv) (values : List Value) (c : ValueCat) : Nat :=
  (values.filterMap (classifyValue env)).count c

/-- identifyType from dataProcessing.ts lines 7-29: total counts every
input value (the callers pass the non-missing values only), the ratio
checks are strict (share > 0.8) and run in the order Number, Boolean,
Date, String; an empty input is Unknown, no winner is Mixed. -/
def identifyType (env : JsEnv) (values : List Value) : ColumnType :=
  let numCount := catCount env values .numish
  let boolCount := catCount env values .boolish
  let dateCount := catCount env values .dateish
  let strCount := catCount env values .strish
  let total := values.length
  if total = 0 then .Unknown
  else if (numCount : ℚ) / total > 0.8 then .Number
  else if (boolCount : ℚ) / total > 0.8 then .Boolean
  else if (dateCount : ℚ) / total > 0.8 then .Date
  else if (strCount : ℚ) / total > 0.8 then .String
  else .Mixed

/-- Per-column profile (the ColumnProfile record).  missingPercentage is
a JS float; on a zero-row column the source produces NaN (0/0), which
the rational model collapses to 0 - no verified claim touches it. -/
structure ColumnProfile where
  name : String
  type : ColumnType
  missingCount : Nat
  missingPercentage : ℚ
  uniqueCount : Nat
  exampleVal : Value
deriving DecidableEq, Repr

/-- createColumnProfiles from lines 31-46: for every header, the column
values, the non-missing ones, the distinct canonical strings, the type
of the non-missing values, and the first non-missing value (?? null). -/
def createColumnProfiles (env : JsEnv) (rows : List DataRow)
    (headers : List String) : List ColumnProfile :=
  headers.map (fun header =>
    let values := rows.map (fun r => rowGet r header)
    let nonNullValues := values.filter (fun v => !isMissing v)
    let uniqueValues := (nonNullValues.map (jsString env)).dedup
    { name := header
      type := identifyType env nonNullValues
      missingCount := values.length - nonNullValues.length
      missingPercentage :=
        ((values.length - nonNullValues.length : ℚ) / values.length) * 100
      uniqueCount := uniqueValues.length
      exampleVal := nonNullValues.headD Value.null })

/-- The DataSet record. -/
structure DataSet where
  fileName : String
  fileSize : Nat
  totalRows : Nat
  headers : List String
  rows : List DataRow
  columnProfiles : List ColumnProfile
deriving DecidableEq, Repr

/-- rebuildDataSet from lines 48-59: headers are the keys of the first
row (empty row list gives empty headers) and profiles are re-derived. -/
def rebuildDataSet (env : JsEnv) (rows : List DataRow)
    (fileName : String) (fileSize : Nat) : DataSet :=
  let headers := match rows with
    | [] => []
    | r :: _ => rowKeys r
  { fileName := fileName
    fileSize := fileSize
    totalRows := rows.length
    headers := headers
    rows := rows
    columnProfiles := createColumnProfiles env rows headers }

/-- Cleaning action kinds (the CleaningAction type tag). -/
inductive CleaningActionType where
  | impute | remove_duplicates | normalize_headers | cast_type | drop_column
deriving DecidableEq, Repr

/-- Imputation strategies (the ImputationStrategy union). -/
inductive ImputationStrategy where
  | mean | median | mode | fill_zero | remove_row
deriving DecidableEq, Repr

/-- Cast targets (the TypeCastTarget union: Number, String, Date,
Boolean; constructor names carry a t to avoid clashing with Lean). -/
inductive TypeCastTarget where
  | tNumber | tString | tDate | tBoolean
deriving DecidableEq, Repr

/-- One cleaning action: a type tag, an optional target column and the
optional parameter bag fields (strategy for impute, targetType for
cast_type). -/
structure CleaningAction where
  type : CleaningActionType
  column : Option String := none
  strategy : Option ImputationStrategy := none
  targetType : Option TypeCastTarget := none
deriving DecidableEq, Repr

/-- A cleaning plan: the ordered action list (the summary string plays
no role in execution). -/
structure CleaningPlan where
  actions : List CleaningAction
deriving DecidableEq, Repr

/-- The guard action.column uses JS truthiness, so a present but empty
column name is treated as absent. -/
def colPresent (c : Option String) : Bool :=
  match c with
  | some s => decide (s ≠ "")
  | none => false

/-- State of the cleaning loop.  work is the cleanedRows array: each
entry carries the index of the original row object it aliases (none
after normalize_headers builds fresh objects) next to the current
object contents.  orig tracks the current contents of the input
dataset's row objects, which in-place mutations also update. -/
structure CleanSt where
  orig : List DataRow
  work : List (Option Nat × DataRow)
  headers : List String

/-- Apply an in-place per-row mutation f to every object in the working
array.  Original row objects still aliased by a working entry receive
the same mutation, as JS forEach over shared references does. -/
def updWork (f : DataRow → DataRow) (st : CleanSt) : CleanSt :=
  { orig := st.orig.enum.map (fun p =>
      match st.work.find? (fun e => e.1 = some p.1) with
      | some e => f e.2
      | none => p.2)
    work := st.work.map (fun e => (e.1, f e.2))
    headers := st.headers }

/-- The JSON.stringify signature used by remove_duplicates: keys in
insertion order, properties with undefined values dropped, NaN
serialized as null.  Serialization of the remaining values is injective,
so signature equality is modelled as equality of this normal form. -/
def rowSig (r : DataRow) : List (String × Value) :=
  r.filterMap (fun p =>
    match p.2 with
    | .undef => none
    | .nan => some (p.1, Value.null)
    | v => some (p.1, v))

/-- The filter with a seen set from lines 113-119: keep an entry when
its signature has not been seen, first occurrence wins. -/
def dedupWorkAux (seen : List (List (String × Value))) :
    List (Option Nat × DataRow) → List (Option Nat × DataRow)
  | [] => []
  | e :: rest =>
      if rowSig e.2 ∈ seen then dedupWorkAux seen rest
      else e :: dedupWorkAux (rowSig e.2 :: seen) rest

/-- remove_duplicates over the working array. -/
def dedupWork (work : List (Option Nat × DataRow)) :
    List (Option Nat × DataRow) :=
  dedupWorkAux [] work

/-- True for word characters in the JS sense (the \w class, ASCII
letters, digits and underscore). -/
def isWordChar (c : Char) : Bool :=
  c.isAlpha || c.isDigit || c = '_'

mutual

/-- Collapse every maximal run of non-word characters to a single
underscore (the replace of runs matching whitespace-or-non-word with
an underscore; whitespace is itself non-word, so the class is exactly
the non-word characters). -/
def collapseNonWord : List Char → List Char
  | [] => []
  | c :: rest =>
      if isWordChar c then c :: collapseNonWord rest
      else '_' :: skipNonWord rest

/-- Skip the remainder of a non-word run already represented by an
underscore. -/
def skipNonWord : List Char → List Char
  | [] => []
  | c :: rest =>
      if isWordChar c then c :: collapseNonWord rest
      else skipNonWord rest

end

/-- Header normalization from line 125: trim, lowercase, collapse
non-word runs to underscore, strip leading and trailing underscores. -/
def normHeader (h : String) : String :=
  let collapsed := String.mk (collapseNonWord (h.trim.toLower.toList))
  String.mk (((collapsed.toList.dropWhile (fun c => c = '_')).reverse.dropWhile
    (fun c => c = '_')).reverse)

/-- Row rewrite for normalize_headers, lines 129-135: the new object
takes, for each key of the old row that is a current header, the value
under the normalized name; a normalized name that is empty is falsy in
the newMap[k] guard, so that key is dropped.  Later keys mapping to the
same new name overwrite the value but keep the first position, as JS
object assignment does. -/
def normRow (headers : List String) (r : DataRow) : DataRow :=
  r.foldl (fun acc p =>
    if p.1 ∈ headers ∧ normHeader p.1 ≠ "" then
      rowSet acc (normHeader p.1) p.2
    else acc) []

/-- The tracked mode fold state: counts by canonical string, the running
maximum and the current mode value (lines 156-170). -/
structure ModeSt where
  counts : List (String × Nat)
  maxC : Nat
  modeVal : Value

/-- Bump a counter in an insertion-ordered counts object. -/
def bumpCount (counts : List (String × Nat)) (k : String) :
    List (String × Nat) :=
  match counts with
  | [] => [(k, 1)]
  | (k0, n) :: rest =>
      if k0 = k then (k0, n + 1) :: rest else (k0, n) :: bumpCount rest k

/-- Read a counter (0 when absent, as counts[s] || 0). -/
def getCount (counts : List (String × Nat)) (k : String) : Nat :=
  match counts.find? (fun p => p.1 = k) with
  | some p => p.2
  | none => 0

/-- One step of the mode fold: missing values are skipped; a strictly
greater count installs the value as the new mode. -/
def modeStep (env : JsEnv) (st : ModeSt) (v : Value) : ModeSt :=
  if isMissing v then st
  else
    let s := jsString env v
    let counts := bumpCount st.counts s
    if getCount counts s > st.maxC then
      { counts := counts, maxC := getCount counts s, modeVal := v }
    else
      { counts := counts, maxC := st.maxC, modeVal := st.modeVal }

/-- The numeric basis of mean and median: values that are numbers and
not NaN (line 147). -/
def numericBasis (values : List Value) : List ℚ :=
  values.filterMap (fun v =>
    match v with
    | .num q => some q
    | _ => none)

/-- Sum of a rational list (the reduce on line 149). -/
def ratSum (l : List ℚ) : ℚ := l.foldl (· + ·) 0

/-- The fill value computed on lines 144-173; Value.null means no fill
(the fillValue !== null guard). -/
def computeFill (env : JsEnv) (strat : ImputationStrategy)
    (values : List Value) : Value :=
  match strat with
  | .mean =>
      let nums := numericBasis values
      if nums.length > 0 then .num (ratSum nums / nums.length) else .null
  | .median =>
      let nums := stableSort (fun a b => decide (a ≤ b)) (numericBasis values)
      if nums.length > 0 then
        let mid := nums.length / 2
        if nums.length % 2 ≠ 0 then .num (nums.getD mid 0)
        else .num ((nums.getD (mid - 1) 0 + nums.getD mid 0) / 2)
      else .null
  | .mode => ((values.foldl (modeStep env) ⟨[], 0, .null⟩)).modeVal
  | .fill_zero => .num 0
  | .remove_row => .null

/-- The impute branch, lines 139-184. -/
def applyImpute (env : JsEnv) (st : CleanSt) (c : String)
    (strat : ImputationStrategy) : CleanSt :=
  let values := st.work.map (fun e => rowGet e.2 c)
  match strat with
  | .remove_row =>
      { st with work := st.work.filter (fun e => !isMissing (rowGet e.2 c)) }
  | _ =>
      let fillValue := computeFill env strat values
      if fillValue = Value.null then st
      else updWork (fun r =>
        if isMissing (rowGet r c) then rowSet r c fillValue else r) st

/-- The cast_type branch, lines 186-203.  The Date arm mirrors
val ? new Date(String(val)).toISOString() : null - an invalid date makes
toISOString throw a RangeError, which aborts the whole cleaning call, so
the embedding returns an error whenever some row holds a truthy value
the date builtin cannot parse (the partially mutated state at the throw
never reaches the caller and is not modelled). -/
def applyCast (env : JsEnv) (st : CleanSt) (c : String)
    (tt : TypeCastTarget) : Except String CleanSt :=
  match tt with
  | .tNumber =>
      .ok (updWork (fun r =>
        rowSet r c (match jsToNumber env (rowGet r c) with
          | some q => .num q
          | none => .null)) st)
  | .tString =>
      .ok (updWork (fun r =>
        rowSet r c (match rowGet r c with
          | .null => .null
          | .undef => .null
          | v => .str (jsString env v))) st)
  | .tDate =>
      if st.work.any (fun e =>
          truthy (rowGet e.2 c) &&
          (env.dateToIso (jsString env (rowGet e.2 c))).isNone) then
        .error "Invalid time value"
      else
        .ok (updWork (fun r =>
          let v := rowGet r c
          if truthy v then
            match env.dateToIso (jsString env v) with
            | some iso => rowSet r c (.str iso)
            | none => rowSet r c .null
          else rowSet r c .null) st)
  | .tBoolean =>
      .ok (updWork (fun r =>
        let s := (jsString env (rowGet r c)).toLower
        rowSet r c (.bool (s = "true" || s = "1" || s = "yes"))) st)

/-- Phase 1: one drop_column application (lines 102-107). -/
def applyDrop (st : CleanSt) (a : CleaningAction) : CleanSt :=
  match a.column with
  | some c =>
      if c = "" then st
      else
        let st1 := updWork (fun r => rowDelete r c) st
        { st1 with headers := st1.headers.filter (fun h => h ≠ c) }
  | none => st

/-- Phase 2: one iteration of the main action loop (lines 109-204);
drop_column was handled in phase 1 and is skipped here.  Malformed
actions (missing column, strategy or target type, or a falsy column
name) fall through every guard and leave the state unchanged. -/
def applyAction (env : JsEnv) (st : CleanSt) (a : CleaningAction) :
    Except String CleanSt :=
  match a.type with
  | .drop_column => .ok st
  | .remove_duplicates => .ok { st with work := dedupWork st.work }
  | .normalize_headers =>
      .ok { orig := st.orig
            work := st.work.map (fun e => ((none : Option Nat), normRow st.headers e.2))
            headers := st.headers.map normHeader }
  | .impute =>
      match a.column, a.strategy with
      | some c, some strat =>
          if c = "" then .ok st else .ok (applyImpute env st c strat)
      | _, _ => .ok st
  | .cast_type =>
      match a.column, a.targetType with
      | some c, some tt =>
          if c = "" then .ok st else applyCast env st c tt
      | _, _ => .ok st

/-- The initial cleaning state: the working array is a shallow copy of
dataset.rows, so every entry aliases the original row object with its
index. -/
def initSt (dataset : DataSet) : CleanSt :=
  { orig := dataset.rows
    work := dataset.rows.enum.map (fun p => (some p.1, p.2))
    headers := dataset.headers }

/-- performDataCleaning, lines 93-207.  The result pairs the rebuilt
dataset with the final contents of the input dataset's row objects
(which in-place actions mutate through the shared references). -/
def performDataCleaning (env : JsEnv) (dataset : DataSet)
    (plan : CleaningPlan) : Except String (DataSet × List DataRow) :=
  let st1 := (plan.actions.filter
    (fun a => a.type = CleaningActionType.drop_column)).foldl applyDrop
      (initSt dataset)
  match plan.actions.foldlM (applyAction env) st1 with
  | .error e => .error e
  | .ok st2 =>
      .ok (rebuildDataSet env (st2.work.map (fun e => e.2))
        dataset.fileName dataset.fileSize, st2.orig)

/-- True when performDataCleaning returned normally. -/
def cleanOk (r : Except String (DataSet × List DataRow)) : Bool :=
  match r with
  | .ok _ => true
  | .error _ => false

/-- Rows of the dataset a successful cleaning call returned (empty list
on an error, which no theorem relies on). -/
def okRows (r : Except String (DataSet × List DataRow)) : List DataRow :=
  match r with
  | .ok p => p.1.rows
  | .error _ => []

/-- Final contents of the input dataset's row objects after a
successful cleaning call. -/
def okOrig (r : Except String (DataSet × List DataRow)) : List DataRow :=
  match r with
  | .ok p => p.2
  | .error _ => []

/-- Transformation methods (the TransformationAction union). -/
inductive TransformMethod where
  | label | one_hot | min_max | z_score | log
deriving DecidableEq, Repr

/-- One transformation action: target column and method. -/
structure TransformationAction where
  column : String
  method : TransformMethod
deriving DecidableEq, Repr

/-- Effect of the JSON.parse(JSON.stringify(rows)) deep copy on one
value: properties holding undefined are dropped by the caller, and NaN
round-trips as null. -/
def jsonCopyVal : Value → Value
  | .nan => .null
  | v => v

/-- Deep copy of one row through the JSON round trip. -/
def jsonCopyRow (r : DataRow) : DataRow :=
  r.filterMap (fun p =>
    match p.2 with
    | .undef => none
    | .nan => some (p.1, Value.null)
    | v => some (p.1, v))

/-- The sorted distinct canonical strings of a column over the current
rows (Array.from(new Set(rows.map(r to String(r[col])))).sort(); the JS
sort on strings is lexicographic and Set preserves first insertion, so
sorting the first-occurrence dedup gives the same list). -/
def uniqueStrings (env : JsEnv) (rows : List DataRow) (col : String) :
    List String :=
  stableSort strLe ((rows.map (fun r => jsString env (rowGet r col))).dedup)

/-- Sanitization of a value for a one-hot column name: every character
outside a-zA-Z0-9 becomes an underscore (per character, not per run). -/
def sanitizeVal (s : String) : String :=
  String.mk (s.toList.map (fun c =>
    if c.isAlpha || c.isDigit then c else '_'))

/-- The generated one-hot header for one distinct value. -/
def oneHotHeader (col : String) (val : String) : String :=
  col ++ "_" ++ sanitizeVal val

/-- The per-row effect of the inner one_hot loop for one distinct
value: write 1 into the generated column when the row's canonical value
is that value, else 0. -/
def oneHotRowStep (env : JsEnv) (col : String) (r : DataRow)
    (val : String) : DataRow :=
  rowSet r (oneHotHeader col val)
    (if jsString env (rowGet r col) = val then Value.num 1 else Value.num 0)

/-- Binary minimum on the rational model of JS numbers. -/
def qmin (a b : ℚ) : ℚ := if a ≤ b then a else b

/-- Binary maximum on the rational model of JS numbers. -/
def qmax (a b : ℚ) : ℚ := if a ≤ b then b else a

/-- Minimum of a rational list (Math.min over a nonempty spread; the
callers only use it behind a nonemptiness check, see the min_max arm). -/
def ratMin : List ℚ → ℚ
  | [] => 0
  | q :: rest => rest.foldl qmin q

/-- Maximum of a rational list. -/
def ratMax : List ℚ → ℚ
  | [] => 0
  | q :: rest => rest.foldl qmax q

/-- The coerced numeric column values used by min_max and z_score:
map Number(r[col]) then filter out NaN (lines 240 and 254). -/
def coercedColumn (env : JsEnv) (rows : List DataRow) (col : String) :
    List ℚ :=
  rows.filterMap (fun r => jsToNumber env (rowGet r col))

/-- One transformation action applied to the current rows and headers
(lines 213-278).  The one_hot arm iterates the distinct values in the
outer loop and the rows in the inner loop, appending one indicator
column per value; a later value whose sanitized header collides with an
earlier one simply overwrites that property on every row.  In the
min_max arm an empty coerced list makes the JS code compare
Math.max() = -Infinity with Math.min() = Infinity and enter the rewrite
loop, which then touches nothing because every coercion is NaN; the
embedding returns the rows unchanged in that case, which is the same
function. -/
def applyTransform (env : JsEnv) : List DataRow × List String →
    TransformationAction → List DataRow × List String
  | (rows, headers), a =>
    let col := a.column
    match a.method with
    | .label =>
        let unique := uniqueStrings env rows col
        let rows2 := rows.map (fun r =>
          rowSet r (col ++ "_encoded")
            (match unique.indexOf? (jsString env (rowGet r col)) with
             | some i => .num i
             | none => .undef))
        (rows2, headers ++ [col ++ "_encoded"])
    | .one_hot =>
        let unique := uniqueStrings env rows col
        if unique.length > 50 then (rows, headers)
        else
          unique.foldl (fun st val =>
            (st.1.map (fun r => oneHotRowStep env col r val),
             st.2 ++ [oneHotHeader col val])) (rows, headers)
    | .min_max =>
        let values := coercedColumn env rows col
        if values = [] then (rows, headers)
        else
          let mn := ratMin values
          let mx := ratMax values
          if mx ≠ mn then
            (rows.map (fun r =>
              match jsToNumber env (rowGet r col) with
              | some v => rowSet r col (.num ((v - mn) / (mx - mn)))
              | none => r), headers)
          else (rows, headers)
    | .z_score =>
        let values := coercedColumn env rows col
        let mean := ratSum values / values.length
        let stdDev := env.sqrt
          (ratSum (values.map (fun v => (v - mean) ^ 2)) / values.length)
        if stdDev ≠ 0 then
          (rows.map (fun r =>
            match jsToNumber env (rowGet r col) with
            | some v => rowSet r col (.num ((v - mean) / stdDev))
            | none => r), headers)
        else (rows, headers)
    | .log =>
        (rows.map (fun r =>
          match jsToNumber env (rowGet r col) with
          | some v =>
              if v > 0 then rowSet r col (.num (env.log v))
              else rowSet r col (.num 0)
          | none => r), headers)

/-- performDataTransformation, lines 209-281: deep copy the rows, fold
the actions, rebuild the dataset (the rebuilt headers come from the
first row's keys, so the folded header list is only loop state). -/
def performDataTransformation (env : JsEnv) (dataset : DataSet)
    (actions : List TransformationAction) : DataSet :=
  let start := (dataset.rows.map jsonCopyRow, dataset.headers)
  let res := actions.foldl (applyTransform env) start
  rebuildDataSet env res.1 dataset.fileName dataset.fileSize

/-- Test kinds (the TestParams type field). -/
inductive TestType where
  | ttest | ztest | chiSquare | anova
deriving DecidableEq, Repr

/-- Test parameters: kind plus up to three column references. -/
structure TestParams where
  type : TestType
  targetColumn : String
  secondColumn : Option String := none
  groupColumn : Option String := none
deriving DecidableEq, Repr

/-- Test result value (the TestResult record).  The details and
insights strings are derived presentation text and are not modelled;
statistic-valued fields live in the rational approximation, with the
JS division-by-zero infinities collapsing to 0 - no verified claim
depends on those numeric values. -/
structure TestResult where
  testName : String
  statistic : ℚ
  statisticName : String
  degreesOfFreedom : Int
  criticalValue : ℚ
  isSignificant : Bool
  pValue : ℚ
deriving DecidableEq, Repr

/-- getNumData from line 288: coerce every cell and drop the NaN. -/
def getNumData (env : JsEnv) (dataset : DataSet) (col : String) : List ℚ :=
  dataset.rows.filterMap (fun r => jsToNumber env (rowGet r col))

/-- getCatData from line 289: canonical string of every cell. -/
def getCatData (env : JsEnv) (dataset : DataSet) (col : String) :
    List String :=
  dataset.rows.map (fun r => jsString env (rowGet r col))

/-- The second sample of the two-sample tests (line 303): the ternary
params.secondColumn ? getNumData(...) : [] with JS truthiness, so an
absent or empty column name gives the empty sample. -/
def secondNumData (env : JsEnv) (dataset : DataSet) (c : Option String) :
    List ℚ :=
  match c with
  | some c2 => if c2 = "" then [] else getNumData env dataset c2
  | none => []

/-- The uppercase test name of the result. -/
def testTypeName : TestType → String
  | .ttest => "T-TEST"
  | .ztest => "Z-TEST"
  | .chiSquare => "CHI-SQUARE"
  | .anova => "ANOVA"

/-- Bump one cell of the insertion-ordered contingency table. -/
def bumpTable (table : List (String × List (String × Nat))) (rKey cKey : String) :
    List (String × List (String × Nat)) :=
  match table with
  | [] => [(rKey, [(cKey, 1)])]
  | (k, cells) :: rest =>
      if k = rKey then (k, bumpCount cells cKey) :: rest
      else (k, cells) :: bumpTable rest rKey cKey

/-- The chi-square contingency fold of lines 346-354, iterating the row
indices 0 to totalRows-1; an index beyond the data reads undefined,
whose object key is the string undefined. -/
def contingency (col1 col2 : List String) (totalRows : Nat) :
    List (String × List (String × Nat)) × List (String × Nat) ×
      List (String × Nat) × Nat :=
  (List.range totalRows).foldl (fun acc i =>
    let rVal := (col1.get? i).getD "undefined"
    let cVal := (col2.get? i).getD "undefined"
    (bumpTable acc.1 rVal cVal, bumpCount acc.2.1 rVal,
     bumpCount acc.2.2.1 cVal, acc.2.2.2 + 1)) ([], [], [], 0)

/-- One row of the ANOVA grouping fold of lines 393-402: a row whose
target value coerces to a number is appended to the group keyed by the
canonical string of the group column, a fresh key opening a new
group. -/
def anovaStep (env : JsEnv) (target gcol : String)
    (groups : List (String × List ℚ)) (r : DataRow) :
    List (String × List ℚ) :=
  match jsToNumber env (rowGet r target) with
  | some v =>
      let gVal := jsString env (rowGet r gcol)
      match groups.find? (fun p => p.1 = gVal) with
      | some _ => groups.map (fun p =>
          if p.1 = gVal then (p.1, p.2 ++ [v]) else p)
      | none => groups ++ [(gVal, [v])]
  | none => groups

/-- The ANOVA groups object. -/
def anovaGroups (env : JsEnv) (dataset : DataSet) (target gcol : String) :
    List (String × List ℚ) :=
  dataset.rows.foldl (anovaStep env target gcol) []

/-- performHypothesisTest, lines 287-450, in the rational
approximation.  Errors are thrown exactly where the source throws:
too few numeric observations for the two-sample tests, a falsy second
column for chi-square, a falsy group column or fewer than two groups
for ANOVA. -/
def performHypothesisTest (env : JsEnv) (dataset : DataSet)
    (params : TestParams) : Except String TestResult :=
  match params.type with
  | .ttest | .ztest =>
      let data1 := getNumData env dataset params.targetColumn
      let data2 := secondNumData env dataset params.secondColumn
      if data1.length < 2 ∨ data2.length < 2 then
        .error "Not enough numeric data"
      else
        let mean1 := ratSum data1 / data1.length
        let mean2 := ratSum data2 / data2.length
        let var1 := ratSum (data1.map (fun b => (b - mean1) ^ 2)) /
          (data1.length - 1 : ℚ)
        let var2 := ratSum (data2.map (fun b => (b - mean2) ^ 2)) /
          (data2.length - 1 : ℚ)
        let se := env.sqrt (var1 / data1.length + var2 / data2.length)
        let statistic := (mean1 - mean2) / se
        let df : Int := (data1.length : Int) + data2.length - 2
        let criticalValue : ℚ := if df > 30 then 1.96 else 2.04
        let isSig := |statistic| > criticalValue
        .ok { testName := testTypeName params.type
              statistic := statistic
              statisticName := if params.type = .ttest then "t" else "z"
              degreesOfFreedom := df
              criticalValue := criticalValue
              isSignificant := isSig
              pValue := if isSig then 0.01 else 0.2 }
  | .chiSquare =>
      if !colPresent params.secondColumn then
        .error "Chi-Square requires two categorical columns"
      else
        let col2name := (params.secondColumn).getD ""
        let col1 := getCatData env dataset params.targetColumn
        let col2 := getCatData env dataset col2name
        let c := contingency col1 col2 dataset.totalRows
        let table := c.1
        let rowTotals := c.2.1
        let colTotals := c.2.2.1
        let grandTotal := c.2.2.2
        let statistic := table.foldl (fun acc rc =>
          rc.2.foldl (fun acc2 cc =>
            let expected : ℚ :=
              (getCount rowTotals rc.1 * getCount colTotals cc.1 : Nat) /
                (grandTotal : ℚ)
            acc2 + ((cc.2 : ℚ) - expected) ^ 2 / expected) acc) 0
        let nrows := rowTotals.length
        let ncols := colTotals.length
        let df : Int := ((nrows : Int) - 1) * ((ncols : Int) - 1)
        let chiCritApprox : ℚ := (df : ℚ) + 1.65 * env.sqrt (2 * (df : ℚ))
        let criticalValue := if nrows > 1 ∧ ncols > 1 then chiCritApprox
          else (3.84 : ℚ)
        let isSig := statistic > criticalValue
        .ok { testName := testTypeName params.type
              statistic := statistic
              statisticName := "Chi²"
              degreesOfFreedom := df
              criticalValue := criticalValue
              isSignificant := isSig
              pValue := if isSig then 0.01 else 0.2 }
  | .anova =>
      if !colPresent params.groupColumn then
        .error "ANOVA requires a group column"
      else
        let gcol := (params.groupColumn).getD ""
        let groups := anovaGroups env dataset params.targetColumn gcol
        let n : Nat := (groups.map (fun p => p.2.length)).foldl (· + ·) 0
        let totalSum : ℚ := ratSum (groups.map (fun p => ratSum p.2))
        let k := groups.length
        if k < 2 then .error "Need at least 2 groups for ANOVA"
        else
          let grandMean := totalSum / n
          let ssb := ratSum (groups.map (fun p =>
            (p.2.length : ℚ) * (ratSum p.2 / p.2.length - grandMean) ^ 2))
          let ssw := ratSum (groups.map (fun p =>
            ratSum (p.2.map (fun v => (v - ratSum p.2 / p.2.length) ^ 2))))
          let dfBetween : ℚ := (k : ℚ) - 1
          let dfWithin : ℚ := (n : ℚ) - k
          let msb := ssb / dfBetween
          let msw := ssw / dfWithin
          let statistic := msb / msw
          let isSig := statistic > 3
          .ok { testName := testTypeName params.type
                statistic := statistic
                statisticName := "F"
                degreesOfFreedom := (k : Int) - 1
                criticalValue := 3
                isSignificant := isSig
                pValue := if isSig then 0.01 else 0.2 }

/-- One row of the category-count fold: cells that are null or
undefined are skipped, every other cell (the empty string included)
bumps the counter of its canonical string. -/
def catStep (env : JsEnv) (col : String) (acc : List (String × Nat))
    (row : DataRow) : List (String × Nat) :=
  match rowGet row col with
  | .null => acc
  | .undef => acc
  | v => bumpCount acc (jsString env v)

/-- getCategoryCounts, lines 575-588: count canonical strings of every
cell that is not null and not undefined (the empty string is NOT
excluded), sort descending by count (the JS sort is stable), truncate
to the limit. -/
def getCategoryCounts (env : JsEnv) (dataset : DataSet) (col : String)
    (limit : Nat) : List (String × Nat) :=
  let counts := dataset.rows.foldl (catStep env col) []
  ((stableSort (fun a b => decide (b.2 ≤ a.2)) counts).take limit)

/-- A concrete executable instantiation of the JS builtins, used to
evaluate the model on the concrete inputs of witnesses and
counterexamples.  Its string-to-number parser accepts nonempty digit
strings only, its date builtins reject everything, and sqrt and log are
the zero function - each is one legal behaviour of the abstracted
builtin on the inputs the concrete theorems touch. -/
def envDemo : JsEnv :=
  { strToNumber := fun s =>
      if s.length > 0 ∧ s.toList.all Char.isDigit then
        some ((s.toList.foldl (fun n c => n * 10 + (c.toNat - 48)) 0 : Nat) : ℚ)
      else none
    dateParse := fun _ => none
    dateToIso := fun _ => none
    numToString := fun q =>
      if q.den = 1 then toString q.num
      else toString q.num ++ "/" ++ toString q.den
    sqrt := fun _ => 0
    log := fun _ => 0 }

/-! ### Specification-side definitions used by the claim statements -/

/-- The one-action plan casting a column. -/
def castPlan (c : String) (tt : TypeCastTarget) : CleaningPlan :=
  ⟨[{ type := .cast_type, column := some c, targetType := some tt }]⟩

/-- The one-action plan imputing a column. -/
def imputePlan (c : String) (strat : ImputationStrategy) : CleaningPlan :=
  ⟨[{ type := .impute, column := some c, strategy := some strat }]⟩

/-- The one-action deduplication plan. -/
def dedupPlan : CleaningPlan :=
  ⟨[{ type := .remove_duplicates }]⟩

/-- Order-independent content equality of two rows: every key of either
row reads the same value in both. -/
def contentEq (r1 r2 : DataRow) : Bool :=
  (rowKeys r1 ++ rowKeys r2).all (fun k => rowGet r1 k = rowGet r2 k)

/-- Cleaning actions that never write through the shared row object
references: deduplication and the remove_row imputation only filter the
working array, and normalize_headers builds fresh row objects. -/
def nonMutating (a : CleaningAction) : Bool :=
  match a.type with
  | .remove_duplicates => true
  | .normalize_headers => true
  | .impute => a.strategy = some ImputationStrategy.remove_row
  | _ => false

/-- The fill basis of an imputation strategy is empty: no numeric
non-NaN value for mean and median, no non-missing value for mode; the
constant strategies always have a basis. -/
def imputeBasisEmpty (env : JsEnv) (ds : DataSet) (c : String)
    (strat : ImputationStrategy) : Bool :=
  match strat with
  | .mean => numericBasis (ds.rows.map (fun r => rowGet r c)) = []
  | .median => numericBasis (ds.rows.map (fun r => rowGet r c)) = []
  | .mode => (ds.rows.map (fun r => rowGet r c)).all (fun v => isMissing v)
  | .fill_zero => false
  | .remove_row => false

/-- Sum of a row's one-hot indicator cells over a list of distinct
values (non-numeric cells count 0). -/
def indicatorSum (env : JsEnv) (r : DataRow) (col : String)
    (vals : List String) : ℚ :=
  (vals.map (fun val =>
    match rowGet r (oneHotHeader col val) with
    | .num q => q
    | _ => 0)).sum

/-- Number of rows whose cell in a column is neither null nor undefined
and has the given canonical string. -/
def categoryCount (env : JsEnv) (rows : List DataRow) (col : String)
    (name : String) : Nat :=
  (rows.filter (fun r =>
    match rowGet r col with
    | .null => false
    | .undef => false
    | v => decide (jsString env v = name))).length

/-- The canonical group keys ANOVA sees: one entry per row whose target
cell coerces to a number, holding the group cell's canonical string. -/
def anovaKeyList (env : JsEnv) (ds : DataSet) (target gcol : String) :
    List String :=
  ds.rows.filterMap (fun r =>
    if (jsToNumber env (rowGet r target)).isSome then
      some (jsString env (rowGet r gcol))
    else none)

/-- The exact situations in which performHypothesisTest signals an
error: a two-sample test with fewer than 2 usable numeric observations
in either sample (an absent column yields 0 observations), a chi-square
call without a truthy second column name, an ANOVA call without a
truthy group column name or with fewer than 2 distinct groups among the
rows whose target value is numeric. -/
def hypothesisError (env : JsEnv) (ds : DataSet) (params : TestParams) :
    Prop :=
  match params.type with
  | .ttest | .ztest =>
      (getNumData env ds params.targetColumn).length < 2 ∨
      (secondNumData env ds params.secondColumn).length < 2
  | .chiSquare => colPresent params.secondColumn = false
  | .anova =>
      colPresent params.groupColumn = false ∨
      ((anovaKeyList env ds params.targetColumn
        ((params.groupColumn).getD "")).dedup).length < 2

/-- True when performHypothesisTest returned a result. -/
def testOk (r : Except String TestResult) : Bool :=
  match r with
  | .ok _ => true
  | .error _ => false

/-! ### Concrete inputs for witnesses and counterexamples -/

/-- One null cell; the undo counterexample input. -/
def dsMut : DataSet :=
  { fileName := "f", fileSize := 1, totalRows := 1, headers := ["a"],
    rows := [[("a", Value.null)]], columnProfiles := [] }

/-- Two identical rows; used to exercise the non-mutating plans. -/
def dsDupPair : DataSet :=
  { fileName := "f", fileSize := 1, totalRows := 2, headers := ["a"],
    rows := [[("a", Value.num 1)], [("a", Value.num 1)]],
    columnProfiles := [] }

/-- Two rows with equal content stored in different field order. -/
def dsSwap : DataSet :=
  { fileName := "f", fileSize := 1, totalRows := 2, headers := ["a", "b"],
    rows := [[("a", Value.num 1), ("b", Value.num 2)],
             [("b", Value.num 2), ("a", Value.num 1)]],
    columnProfiles := [] }

/-- One unparseable date string. -/
def dsHello : DataSet :=
  { fileName := "f", fileSize := 1, totalRows := 1, headers := ["d"],
    rows := [[("d", Value.str "hello")]], columnProfiles := [] }

/-- Five non-missing values of which exactly four are numeric. -/
def valsFourOfFive : List Value :=
  [Value.num 1, Value.num 1, Value.num 1, Value.num 1, Value.str "x"]

/-- A single numeric value. -/
def valsOneNum : List Value := [Value.num 1]

/-- Two categorical rows; the chi-square target column zzz is absent. -/
def dsTwoCats : DataSet :=
  { fileName := "f", fileSize := 1, totalRows := 2, headers := ["a"],
    rows := [[("a", Value.str "x")], [("a", Value.str "y")]],
    columnProfiles := [] }

/-- A numeric column with one missing cell. -/
def dsOneMissing : DataSet :=
  { fileName := "f", fileSize := 1, totalRows := 2, headers := ["a"],
    rows := [[("a", Value.null)], [("a", Value.num 2)]],
    columnProfiles := [] }

/-- Two distinct values whose sanitized one-hot names collide. -/
def dsClash : DataSet :=
  { fileName := "f", fileSize := 1, totalRows := 2, headers := ["c"],
    rows := [[("c", Value.str "a.b")], [("c", Value.str "a_b")]],
    columnProfiles := [] }

/-- Two distinct values with distinct sanitized names. -/
def dsTwoVals : DataSet :=
  { fileName := "f", fileSize := 1, totalRows := 2, headers := ["c"],
    rows := [[("c", Value.str "a")], [("c", Value.str "b")]],
    columnProfiles := [] }

/-- A numeric column with a null cell, for min_max. -/
def dsMinMaxNull : DataSet :=
  { fileName := "f", fileSize := 1, totalRows := 3, headers := ["x"],
    rows := [[("x", Value.num 1)], [("x", Value.num 3)],
             [("x", Value.null)]],
    columnProfiles := [] }

/-- A numeric column with a non-numeric text cell, for min_max. -/
def dsMinMaxText : DataSet :=
  { fileName := "f", fileSize := 1, totalRows := 3, headers := ["x"],
    rows := [[("x", Value.num 0)], [("x", Value.num 2)],
             [("x", Value.str "abc")]],
    columnProfiles := [] }

/-- A column with two empty-string cells and one text cell. -/
def dsEmptyStrCat : DataSet :=
  { fileName := "f", fileSize := 1, totalRows := 3, headers := ["c"],
    rows := [[("c", Value.str "")], [("c", Value.str "")],
             [("c", Value.str "x")]],
    columnProfiles := [] }

/-! ### Basic lemmas about the row object model -/

theorem rowGet_rowSet_same (r : DataRow) (k : String) (v : Value) :
    rowGet (rowSet r k v) k = v := by
  induction r with
  | nil => simp [rowSet, rowGet, List.find?]
  | cons p rest ih =>
      obtain ⟨k0, v0⟩ := p
      by_cases h : k0 = k
      · simp [rowSet, h, rowGet, List.find?]
      · simpa [rowSet, h, rowGet, List.find?] using ih

theorem rowGet_rowSet_other (r : DataRow) (k k2 : String) (v : Value)
    (h : k2 ≠ k) : rowGet (rowSet r k v) k2 = rowGet r k2 := by
  have hk : (k = k2) = False := by
    simp only [eq_iff_iff, iff_false]
    exact fun h2 => h h2.symm
  induction r with
  | nil => simp [rowSet, rowGet, List.find?, hk]
  | cons p rest ih =>
      obtain ⟨k0, v0⟩ := p
      by_cases h0 : k0 = k
      · subst h0
        simp [rowSet, rowGet, List.find?, hk]
      · by_cases h2 : k0 = k2
        · simp [rowSet, h0, rowGet, List.find?, h2, h]
        · simpa [rowSet, h0, rowGet, List.find?, h2] using ih

theorem mem_rowKeys_rowSet_self (r : DataRow) (k : String) (v : Value) :
    k ∈ rowKeys (rowSet r k v) := by
  induction r with
  | nil => simp [rowSet, rowKeys]
  | cons p rest ih =>
      obtain ⟨k0, v0⟩ := p
      by_cases h : k0 = k
      · simp [rowSet, h, rowKeys]
      · simpa [rowSet, h, rowKeys] using Or.inr ih

theorem mem_rowKeys_rowSet_of_mem (r : DataRow) (k k2 : String) (v : Value)
    (h : k2 ∈ rowKeys r) : k2 ∈ rowKeys (rowSet r k v) := by
  induction r with
  | nil => simp [rowKeys] at h
  | cons p rest ih =>
      obtain ⟨k0, v0⟩ := p
      by_cases h0 : k0 = k
      · subst h0
        rcases (by simpa [rowKeys] using h) with h2 | h2
        · simp [rowSet, rowKeys, h2]
        · simpa [rowSet, rowKeys] using Or.inr h2
      · rcases (by simpa [rowKeys] using h) with h2 | h2
        · simp [rowSet, h0, rowKeys, h2]
        · simpa [rowSet, h0, rowKeys] using Or.inr (ih (by simpa [rowKeys] using h2))

/-- The values of the initial working array are the dataset rows. -/
theorem initSt_work_rows (ds : DataSet) :
    (initSt ds).work.map (fun e => e.2) = ds.rows := by
  simp [initSt, List.map_map]
  exact List.enum_map_snd ds.rows

/-- Mapping any function of the row value over the initial working
array is mapping it over the dataset rows. -/
theorem initSt_work_map {α : Type} (ds : DataSet) (f : DataRow → α) :
    (initSt ds).work.map (fun e => f e.2) = ds.rows.map f := by
  have h := congrArg (List.map f) (initSt_work_rows ds)
  simpa [List.map_map] using h

/-- The row values of an in-place mutation of the working array. -/
theorem updWork_work_rows (f : DataRow → DataRow) (st : CleanSt) :
    (updWork f st).work.map (fun e => e.2) = st.work.map (fun e => f e.2) := by
  simp [updWork, List.map_map]

/-- A single-action plan whose action is not a drop reduces to one
applyAction step from the initial state. -/
theorem performDataCleaning_single (env : JsEnv) (ds : DataSet)
    (a : CleaningAction) (h : a.type ≠ CleaningActionType.drop_column) :
    performDataCleaning env ds ⟨[a]⟩ =
      match applyAction env (initSt ds) a with
      | .error e => .error e
      | .ok st2 =>
          .ok (rebuildDataSet env (st2.work.map (fun e => e.2))
            ds.fileName ds.fileSize, st2.orig) := by
  have hfilter : ([a].filter
      (fun x => decide (x.type = CleaningActionType.drop_column))) = [] := by
    simp [List.filter, h]
  simp only [performDataCleaning, hfilter, List.foldl]
  cases hx : applyAction env (initSt ds) a with
  | error e => simp [List.foldlM, hx]
  | ok st2 => simp [List.foldlM, hx]

/-- A successful single non-drop action determines the cleaning
result. -/
theorem performDataCleaning_single_ok (env : JsEnv) (ds : DataSet)
    (a : CleaningAction) (st2 : CleanSt) (rows : List DataRow)
    (h : a.type ≠ CleaningActionType.drop_column)
    (ha : applyAction env (initSt ds) a = .ok st2)
    (hrows : st2.work.map (fun e => e.2) = rows) :
    performDataCleaning env ds ⟨[a]⟩ =
      .ok (rebuildDataSet env rows ds.fileName ds.fileSize, st2.orig) := by
  rw [performDataCleaning_single env ds a h, ha]
  exact congrArg (fun l =>
    Except.ok (rebuildDataSet env l ds.fileName ds.fileSize, st2.orig)) hrows

/-- In-place mutation from the initial state gives the mapped rows. -/
theorem updWork_initSt_rows (ds : DataSet) (f : DataRow → DataRow) :
    (updWork f (initSt ds)).work.map (fun e => e.2) = ds.rows.map f := by
  rw [updWork_work_rows]
  exact initSt_work_map ds f

/-- okRows of a successful result. -/
theorem okRows_ok (p : DataSet × List DataRow) :
    okRows (Except.ok p) = p.1.rows := rfl

/-- okOrig of a successful result. -/
theorem okOrig_ok (p : DataSet × List DataRow) :
    okOrig (Except.ok p) = p.2 := rfl

/-- Rows of a rebuilt dataset are the input rows. -/
theorem rebuildDataSet_rows (env : JsEnv) (rows : List DataRow)
    (fn : String) (fs : Nat) : (rebuildDataSet env rows fn fs).rows = rows :=
  rfl

/-- Forall₂ between a list and its image under a map. -/
theorem forall₂_map_self {α β : Type} (P : α → β → Prop) (f : α → β)
    (l : List α) (h : ∀ x ∈ l, P x (f x)) : List.Forall₂ P l (l.map f) := by
  induction l with
  | nil => simp
  | cons x rest ih =>
      exact List.Forall₂.cons (h x (by simp))
        (ih (fun y hy => h y (by simp [hy])))

/-! ### Claim C2 -/

/-- C2: the claim says a cast_type Date action maps every unparseable
value to null and that the executor never aborts mid-plan.  In the code
the Date arm calls toISOString on the result of new Date(String(val)),
and toISOString throws a RangeError on an invalid date, so a truthy
unparseable value makes performDataCleaning signal an error instead of
writing null: on the one-row dataset holding the string hello the call
errors out, confirming that the claim describes the intended behaviour
and the code deviates from it. -/
theorem C2_cast_date_unparseable_throws :
    performDataCleaning envDemo dsHello (castPlan "d" TypeCastTarget.tDate) =
      Except.error "Invalid time value" := by
  rfl

/-! ### Claim C10 -/

/-- C10: for every dataset and the plan casting a column to Number,
every null or empty-string cell of that column becomes the number 0
(Number(null) and Number of the empty string are 0), and a result cell
is null exactly when the numeric coercion of the input cell is NaN. -/
theorem C10_cast_number_missing_becomes_zero (env : JsEnv) (ds : DataSet)
    (c : String) (hc : c ≠ "") :
    cleanOk (performDataCleaning env ds (castPlan c TypeCastTarget.tNumber)) =
      true ∧
    List.Forall₂ (fun r r2 =>
      ((rowGet r c = Value.null ∨ rowGet r c = Value.str "") →
        rowGet r2 c = Value.num 0) ∧
      (rowGet r2 c = Value.null ↔ jsToNumber env (rowGet r c) = none))
      ds.rows
      (okRows (performDataCleaning env ds (castPlan c TypeCastTarget.tNumber))) := by
  have ha : applyAction env (initSt ds)
      { type := .cast_type, column := some c, targetType := some .tNumber } =
      .ok (updWork (fun r => rowSet r c
        (match jsToNumber env (rowGet r c) with
         | some q => Value.num q
         | none => Value.null)) (initSt ds)) := by
    simp [applyAction, applyCast, hc]
  have hres := performDataCleaning_single_ok env ds
    { type := .cast_type, column := some c, targetType := some .tNumber }
    _ _ (by simp) ha (updWork_initSt_rows ds _)
  have hplan : castPlan c TypeCastTarget.tNumber =
      ⟨[{ type := .cast_type, column := some c, targetType := some .tNumber }]⟩ :=
    rfl
  rw [hplan, hres]
  refine ⟨rfl, ?_⟩
  simp only [okRows_ok, rebuildDataSet_rows]
  apply forall₂_map_self
  intro r hr
  constructor
  · intro hmiss
    rw [rowGet_rowSet_same]
    rcases hmiss with hm | hm
    · rw [hm]
      simp [jsToNumber]
    · rw [hm]
      have htrim : (jsTrim "" = "") := by decide
      simp [jsToNumber, htrim]
  · cases hj : jsToNumber env (rowGet r c) with
    | some q => simp [rowGet_rowSet_same, hj]
    | none => simp [rowGet_rowSet_same, hj]

/-- Witness for C10 at a concrete input: the column holds a null and a
numeric cell, and the theorem applies with its hypothesis discharged. -/
theorem C10_witness :
    cleanOk (performDataCleaning envDemo dsOneMissing
      (castPlan "a" TypeCastTarget.tNumber)) = true ∧
    List.Forall₂ (fun r r2 =>
      ((rowGet r "a" = Value.null ∨ rowGet r "a" = Value.str "") →
        rowGet r2 "a" = Value.num 0) ∧
      (rowGet r2 "a" = Value.null ↔ jsToNumber envDemo (rowGet r "a") = none))
      dsOneMissing.rows
      (okRows (performDataCleaning envDemo dsOneMissing
        (castPlan "a" TypeCastTarget.tNumber))) :=
  C10_cast_number_missing_becomes_zero envDemo dsOneMissing "a" (by decide)

/-! ### Claim C3 -/

/-- The strict share comparison of identifyType in integer form. -/
theorem share_gt_iff (c t : Nat) (ht : 0 < t) :
    ((c : ℚ) / t > 0.8) ↔ 4 * t < 5 * c := by
  have ht2 : (0 : ℚ) < t := by exact_mod_cast ht
  rw [gt_iff_lt, show (0.8 : ℚ) = 4 / 5 by norm_num,
    div_lt_div_iff (by norm_num) ht2]
  constructor
  · intro h
    have h2 : (4 * t : ℚ) < 5 * c := by linarith
    exact_mod_cast h2
  · intro h
    have h2 : ((4 * t : Nat) : ℚ) < ((5 * c : Nat) : ℚ) := by exact_mod_cast h
    push_cast at h2
    linarith

/-- Every non-missing value is classified into exactly one category. -/
theorem classifyValue_isSome (env : JsEnv) (v : Value)
    (h : isMissing v = false) : (classifyValue env v).isSome := by
  cases v with
  | null => simp [isMissing] at h
  | undef => simp [isMissing] at h
  | num q => simp [classifyValue, isMissing]
  | nan => simp [classifyValue, isMissing]
  | bool b => simp [classifyValue, isMissing]
  | str s =>
      have hs : ¬(s = "") := by simpa [isMissing] using h
      simp only [classifyValue, isMissing]
      rw [if_neg (by simpa using hs)]
      split_ifs <;> simp

/-- A filterMap by a function that never drops keeps the length. -/
theorem length_filterMap_all {α β : Type} (f : α → Option β) (l : List α)
    (h : ∀ x ∈ l, (f x).isSome) : (l.filterMap f).length = l.length := by
  induction l with
  | nil => rfl
  | cons x rest ih =>
      have hx := h x (by simp)
      cases hfx : f x with
      | none => rw [hfx] at hx; simp at hx
      | some b =>
          simp only [List.filterMap_cons, hfx, List.length_cons]
          exact congrArg (fun n => n + 1) (ih (fun y hy => h y (by simp [hy])))

/-- The four category counts add up to the length of the list. -/
theorem valueCat_count_sum (l : List ValueCat) :
    l.count .numish + l.count .boolish + l.count .dateish +
      l.count .strish = l.length := by
  induction l with
  | nil => rfl
  | cons c rest ih => cases c <;> simp [List.count_cons] <;> omega

/-- For non-missing inputs the category counts partition the input. -/
theorem catCount_sum (env : JsEnv) (values : List Value)
    (h : ∀ v ∈ values, isMissing v = false) :
    catCount env values .numish + catCount env values .boolish +
      catCount env values .dateish + catCount env values .strish =
      values.length := by
  have hlen : (values.filterMap (classifyValue env)).length = values.length :=
    length_filterMap_all _ _ (fun v hv => classifyValue_isSome env v (h v hv))
  calc catCount env values .numish + catCount env values .boolish +
      catCount env values .dateish + catCount env values .strish
      = (values.filterMap (classifyValue env)).length :=
        valueCat_count_sum _
    _ = values.length := hlen

/-- A category count never exceeds the input length. -/
theorem catCount_le (env : JsEnv) (values : List Value) (c : ValueCat) :
    catCount env values c ≤ values.length :=
  le_trans (List.count_le_length _ _) (List.length_filterMap_le _ _)

/-- identifyType on a nonempty input, with the float ratio checks
re-expressed over the integer counts. -/
theorem identifyType_spec (env : JsEnv) (values : List Value)
    (ht : values ≠ []) :
    identifyType env values =
      (if 4 * values.length < 5 * catCount env values .numish then
        ColumnType.Number
      else if 4 * values.length < 5 * catCount env values .boolish then
        ColumnType.Boolean
      else if 4 * values.length < 5 * catCount env values .dateish then
        ColumnType.Date
      else if 4 * values.length < 5 * catCount env values .strish then
        ColumnType.String
      else ColumnType.Mixed) := by
  have ht0 : 0 < values.length := List.length_pos.mpr ht
  simp only [identifyType]
  rw [if_neg (by omega)]
  simp only [share_gt_iff _ _ ht0]

/-- C3 (amended): over non-missing values, a category whose count is
strictly over 80 percent of the total determines the inferred type, an
empty input is Unknown, and if no category is strictly over 80 percent
the type is Mixed.  The claim's at-least-80-percent reading fails: the
checks in the code are strict. -/
theorem C3_type_inference_thresholds (env : JsEnv) (values : List Value)
    (h : ∀ v ∈ values, isMissing v = false) :
    (values = [] → identifyType env values = ColumnType.Unknown) ∧
    (4 * values.length < 5 * catCount env values .numish →
      identifyType env values = ColumnType.Number) ∧
    (4 * values.length < 5 * catCount env values .boolish →
      identifyType env values = ColumnType.Boolean) ∧
    (4 * values.length < 5 * catCount env values .dateish →
      identifyType env values = ColumnType.Date) ∧
    (4 * values.length < 5 * catCount env values .strish →
      identifyType env values = ColumnType.String) ∧
    (values ≠ [] →
      5 * catCount env values .numish ≤ 4 * values.length →
      5 * catCount env values .boolish ≤ 4 * values.length →
      5 * catCount env values .dateish ≤ 4 * values.length →
      5 * catCount env values .strish ≤ 4 * values.length →
      identifyType env values = ColumnType.Mixed) := by
  have hsum := catCount_sum env values h
  have hle := catCount_le env values
  refine ⟨?_, ?_, ?_, ?_, ?_, ?_⟩
  · intro he
    subst he
    rfl
  · intro hn
    have hne : values ≠ [] := by
      intro he
      subst he
      simp [catCount] at hn
    rw [identifyType_spec env values hne, if_pos hn]
  · intro hb
    have hne : values ≠ [] := by
      intro he
      subst he
      simp [catCount] at hb
    rw [identifyType_spec env values hne, if_neg (by omega), if_pos hb]
  · intro hd
    have hne : values ≠ [] := by
      intro he
      subst he
      simp [catCount] at hd
    rw [identifyType_spec env values hne, if_neg (by omega),
      if_neg (by omega), if_pos hd]
  · intro hs
    have hne : values ≠ [] := by
      intro he
      subst he
      simp [catCount] at hs
    rw [identifyType_spec env values hne, if_neg (by omega),
      if_neg (by omega), if_neg (by omega), if_pos hs]
  · intro hne h1 h2 h3 h4
    rw [identifyType_spec env values hne, if_neg (by omega),
      if_neg (by omega), if_neg (by omega), if_neg (by omega)]

/-- Counterexample to C3 as stated: five non-missing values of which
exactly four (at least 80 percent) are numeric infer Mixed, not Number,
because the code's ratio check is strict. -/
theorem C3_counterexample :
    identifyType envDemo valsFourOfFive = ColumnType.Mixed ∧
    catCount envDemo valsFourOfFive ValueCat.numish = 4 ∧
    valsFourOfFive.length = 5 ∧
    (∀ v ∈ valsFourOfFive, isMissing v = false) := by
  refine ⟨?_, by decide, by decide, by decide⟩
  rw [identifyType_spec envDemo valsFourOfFive (by decide)]
  decide

/-- Witness for C3 at a concrete input: a single numeric value infers
Number. -/
theorem C3_witness :
    (∀ v ∈ valsOneNum, isMissing v = false) ∧
    identifyType envDemo valsOneNum = ColumnType.Number :=
  ⟨by decide,
    (C3_type_inference_thresholds envDemo valsOneNum (by decide)).2.1
      (by decide)⟩

/-! ### Claim C9 -/

theorem insertLe_perm {α : Type} (le : α → α → Bool) (x : α) (l : List α) :
    (insertLe le x l).Perm (x :: l) := by
  induction l with
  | nil => simp [insertLe]
  | cons y ys ih =>
      by_cases h : le x y
      · simp [insertLe, h]
      · simp only [insertLe, h, if_false]
        exact ((ih.cons y).trans (List.Perm.swap x y ys))

theorem stableSort_perm {α : Type} (le : α → α → Bool) (l : List α) :
    (stableSort le l).Perm l := by
  induction l with
  | nil => simp [stableSort]
  | cons x xs ih =>
      exact (insertLe_perm le x (stableSort le xs)).trans (ih.cons x)

theorem pairwise_insertLe {α : Type} (le : α → α → Bool)
    (htot : ∀ a b, le a b = false → le b a = true)
    (htrans : ∀ a b c, le a b = true → le b c = true → le a c = true)
    (x : α) (l : List α) (hl : l.Pairwise (fun a b => le a b = true)) :
    (insertLe le x l).Pairwise (fun a b => le a b = true) := by
  induction l with
  | nil => simp [insertLe]
  | cons y ys ih =>
      rcases List.pairwise_cons.mp hl with ⟨hy, hys⟩
      by_cases h : le x y
      · simp only [insertLe, h, if_true]
        refine List.pairwise_cons.mpr ⟨?_, hl⟩
        intro z hz
        rcases (by simpa using hz : z = y ∨ z ∈ ys) with h2 | h2
        · subst h2
          exact h
        · exact htrans x y z h (hy z h2)
      · simp only [insertLe, h, if_false]
        refine List.pairwise_cons.mpr ⟨?_, ih hys⟩
        intro z hz
        have hz2 : z ∈ x :: ys := (insertLe_perm le x ys).mem_iff.mp hz
        rcases (by simpa using hz2 : z = x ∨ z ∈ ys) with h2 | h2
        · rw [h2]
          exact htot x y (by simpa using h)
        · exact hy z h2

theorem pairwise_stableSort {α : Type} (le : α → α → Bool)
    (htot : ∀ a b, le a b = false → le b a = true)
    (htrans : ∀ a b c, le a b = true → le b c = true → le a c = true)
    (l : List α) :
    (stableSort le l).Pairwise (fun a b => le a b = true) := by
  induction l with
  | nil => simp [stableSort]
  | cons x xs ih => exact pairwise_insertLe le htot htrans x _ ih

/-- Keys of a counts object. -/
def countKeys (acc : List (String × Nat)) : List String :=
  acc.map (fun p => p.1)

theorem getCount_bump_self (acc : List (String × Nat)) (k : String) :
    getCount (bumpCount acc k) k = getCount acc k + 1 := by
  induction acc with
  | nil => simp [bumpCount, getCount, List.find?]
  | cons p rest ih =>
      obtain ⟨k0, n⟩ := p
      by_cases h : k0 = k
      · simp [bumpCount, h, getCount, List.find?]
      · simpa [bumpCount, h, getCount, List.find?] using ih

theorem getCount_bump_other (acc : List (String × Nat)) (k k2 : String)
    (h : k2 ≠ k) : getCount (bumpCount acc k) k2 = getCount acc k2 := by
  have hk : (k = k2) = False := by
    simp only [eq_iff_iff, iff_false]
    exact fun h2 => h h2.symm
  induction acc with
  | nil => simp [bumpCount, getCount, List.find?, hk]
  | cons p rest ih =>
      obtain ⟨k0, n⟩ := p
      by_cases h0 : k0 = k
      · subst h0
        simp [bumpCount, getCount, List.find?, hk]
      · by_cases h2 : k0 = k2
        · simp [bumpCount, h0, getCount, List.find?, h2, h]
        · simpa [bumpCount, h0, getCount, List.find?, h2] using ih

theorem countKeys_bump (acc : List (String × Nat)) (k : String) :
    countKeys (bumpCount acc k) =
      if k ∈ countKeys acc then countKeys acc else countKeys acc ++ [k] := by
  induction acc with
  | nil => simp [bumpCount, countKeys]
  | cons p rest ih =>
      obtain ⟨k0, n⟩ := p
      by_cases h0 : k0 = k
      · subst h0
        simp [bumpCount, countKeys]
      · have hne : ¬k = k0 := fun h2 => h0 h2.symm
        simp only [countKeys] at ih
        by_cases hm : k ∈ rest.map (fun p => p.1)
        · simp [bumpCount, h0, countKeys, ih, hm, hne]
        · simp [bumpCount, h0, countKeys, ih, hm, hne]

theorem countKeys_bump_nodup (acc : List (String × Nat)) (k : String)
    (h : (countKeys acc).Nodup) : (countKeys (bumpCount acc k)).Nodup := by
  rw [countKeys_bump]
  by_cases hm : k ∈ countKeys acc
  · simpa [hm] using h
  · simp only [hm, if_false]
    simp [List.nodup_append, h, hm]

theorem getCount_of_mem_nodup (acc : List (String × Nat)) (p : String × Nat)
    (hnd : (countKeys acc).Nodup) (hp : p ∈ acc) : getCount acc p.1 = p.2 := by
  induction acc with
  | nil => simp at hp
  | cons q rest ih =>
      have hnd2 : q.1 ∉ countKeys rest ∧ (countKeys rest).Nodup := by
        simpa [countKeys, List.nodup_cons] using hnd
      rcases (by simpa using hp : p = q ∨ p ∈ rest) with h1 | h1
      · subst h1
        simp [getCount, List.find?]
      · have hne : ¬(q.1 = p.1) := by
          intro h2
          exact hnd2.1 (by rw [h2]; exact List.mem_map.mpr ⟨p, h1, rfl⟩)
        simpa [getCount, List.find?, hne] using ih hnd2.2 h1

theorem getCount_bump_ite (acc : List (String × Nat)) (s k : String) :
    getCount (bumpCount acc s) k =
      getCount acc k + (if s = k then 1 else 0) := by
  by_cases h : s = k
  · subst h
    simp [getCount_bump_self]
  · simp [h, getCount_bump_other acc s k (fun h2 => h h2.symm)]

theorem getCount_catStep (env : JsEnv) (col : String)
    (acc : List (String × Nat)) (r : DataRow) (k : String) :
    getCount (catStep env col acc r) k =
      getCount acc k +
        (if (match rowGet r col with
          | Value.null => false
          | Value.undef => false
          | v => decide (jsString env v = k)) then 1 else 0) := by
  cases hv : rowGet r col <;> simp [catStep, hv, getCount_bump_ite]

theorem categoryCount_cons (env : JsEnv) (r : DataRow) (rest : List DataRow)
    (col k : String) :
    categoryCount env (r :: rest) col k =
      (if (match rowGet r col with
        | Value.null => false
        | Value.undef => false
        | v => decide (jsString env v = k)) then 1 else 0) +
        categoryCount env rest col k := by
  simp only [categoryCount, List.filter_cons]
  split
  · simp [List.length_cons]
    omega
  · simp

theorem getCount_fold (env : JsEnv) (col : String) (rows : List DataRow)
    (acc : List (String × Nat)) (k : String) :
    getCount (rows.foldl (catStep env col) acc) k =
      getCount acc k + categoryCount env rows col k := by
  induction rows generalizing acc with
  | nil => simp [categoryCount]
  | cons r rest ih =>
      rw [List.foldl_cons, ih, getCount_catStep, categoryCount_cons,
        Nat.add_assoc]

theorem countKeys_fold_nodup (env : JsEnv) (col : String)
    (rows : List DataRow) (acc : List (String × Nat))
    (h : (countKeys acc).Nodup) :
    (countKeys (rows.foldl (catStep env col) acc)).Nodup := by
  induction rows generalizing acc with
  | nil => simpa using h
  | cons r rest ih =>
      rw [List.foldl_cons]
      refine ih _ ?_
      cases hv : rowGet r col <;>
        simp [catStep, hv, h, countKeys_bump_nodup _ _ h]

/-- An entry of the counts object with a positive counter. -/
theorem mem_of_getCount_pos (acc : List (String × Nat)) (k : String)
    (h : 0 < getCount acc k) : (k, getCount acc k) ∈ acc := by
  induction acc with
  | nil => simp [getCount, List.find?] at h
  | cons p rest ih =>
      obtain ⟨k0, v0⟩ := p
      by_cases hk : k0 = k
      · subst hk
        have hg : getCount ((k0, v0) :: rest) k0 = v0 := by
          simp [getCount, List.find?]
        rw [hg]
        exact List.mem_cons_self _ _
      · have hg : getCount ((k0, v0) :: rest) k = getCount rest k := by
          simp [getCount, List.find?, hk]
        rw [hg] at h ⊢
        exact List.mem_cons_of_mem _ (ih h)

/-- An element of a pairwise-sorted list missing from its n-prefix sits
below a full prefix: the prefix has exactly n elements and each of them
relates to it. -/
theorem mem_take_of_pairwise {α : Type} (R : α → α → Prop) (l : List α)
    (hl : l.Pairwise R) (x : α) (n : Nat) (hx : x ∈ l)
    (hnx : x ∉ l.take n) :
    (l.take n).length = n ∧ ∀ p ∈ l.take n, R p x := by
  induction l generalizing n with
  | nil => simp at hx
  | cons y ys ih =>
      obtain ⟨hy, hys⟩ := List.pairwise_cons.mp hl
      cases n with
      | zero => simp
      | succ m =>
          rw [List.take_succ_cons] at hnx ⊢
          have hxy : ¬(x = y) := fun h => hnx (by simp [h])
          have hxys : x ∈ ys := by
            rcases (by simpa using hx) with h | h
            · exact absurd h hxy
            · exact h
          have hnx2 : x ∉ ys.take m := fun h => hnx (by simp [h])
          obtain ⟨hlen, hall⟩ := ih hys m hxys hnx2
          refine ⟨by simp [hlen], ?_⟩
          intro p hp
          rcases (by simpa using hp) with h | h
          · rw [h]
            exact hy x hxys
          · exact hall p h

/-- C9 (amended): getCategoryCounts counts canonical strings with null
and undefined cells excluded, returns at most limit entries with
pairwise-distinct names, sorted descending by count, each carrying the
true frequency of its name; and it is complete up to the truncation:
every name with a positive count either appears with exactly that
count, or the result already holds limit entries whose counts all reach
it.  Contrary to the claim, empty-string cells are NOT excluded:
instantiating the completeness conjunct at the empty-string name shows
they are counted as a category of their own whenever they occur. -/
theorem C9_category_counts (env : JsEnv) (ds : DataSet) (col : String)
    (limit : Nat) :
    (getCategoryCounts env ds col limit).length ≤ limit ∧
    (getCategoryCounts env ds col limit).Pairwise (fun a b => b.2 ≤ a.2) ∧
    (∀ p ∈ getCategoryCounts env ds col limit,
      p.2 = categoryCount env ds.rows col p.1) ∧
    ((getCategoryCounts env ds col limit).map (fun p => p.1)).Nodup ∧
    (∀ name, 0 < categoryCount env ds.rows col name →
      (name, categoryCount env ds.rows col name) ∈
          getCategoryCounts env ds col limit ∨
        ((getCategoryCounts env ds col limit).length = limit ∧
          ∀ p ∈ getCategoryCounts env ds col limit,
            categoryCount env ds.rows col name ≤ p.2)) := by
  have hdef : getCategoryCounts env ds col limit =
      (stableSort (fun a b => decide (b.2 ≤ a.2))
        (ds.rows.foldl (catStep env col) [])).take limit := rfl
  have hperm := stableSort_perm (fun a b => decide (b.2 ≤ a.2))
    (ds.rows.foldl (catStep env col) [])
  have hpair := pairwise_stableSort (fun a b => decide (b.2 ≤ a.2))
    (fun a b hab => by
      have h2 : ¬(b.2 ≤ a.2) := by simpa using hab
      simpa using le_of_not_le h2)
    (fun a b c h1 h2 => by
      have h1b : b.2 ≤ a.2 := by simpa using h1
      have h2b : c.2 ≤ b.2 := by simpa using h2
      simpa using le_trans h2b h1b)
    (ds.rows.foldl (catStep env col) [])
  have hnd := countKeys_fold_nodup env col ds.rows []
    (by simp [countKeys])
  have hcntfold : ∀ k, getCount (ds.rows.foldl (catStep env col) []) k =
      categoryCount env ds.rows col k := by
    intro k
    have hcnt := getCount_fold env col ds.rows [] k
    have hz : getCount [] k = 0 := rfl
    omega
  refine ⟨?_, ?_, ?_, ?_, ?_⟩
  · rw [hdef]
    exact List.length_take_le _ _
  · rw [hdef]
    exact (hpair.imp (fun h => of_decide_eq_true h)).sublist
      (List.take_sublist _ _)
  · intro p hp
    rw [hdef] at hp
    have hp2 := List.take_subset _ _ hp
    have hp3 : p ∈ ds.rows.foldl (catStep env col) [] := hperm.subset hp2
    have hval := getCount_of_mem_nodup _ p hnd hp3
    rw [← hcntfold p.1]
    omega
  · rw [hdef]
    have hperm2 := hperm.map (fun p => p.1)
    have hnd2 : ((stableSort (fun a b => decide (b.2 ≤ a.2))
        (ds.rows.foldl (catStep env col) [])).map (fun p => p.1)).Nodup :=
      (hperm2.nodup_iff).mpr (by simpa [countKeys] using hnd)
    exact hnd2.sublist ((List.take_sublist _ _).map _)
  · intro name hpos
    have hpos2 : 0 < getCount (ds.rows.foldl (catStep env col) []) name := by
      rw [hcntfold name]
      exact hpos
    have hmem : (name, categoryCount env ds.rows col name) ∈
        ds.rows.foldl (catStep env col) [] := by
      have h2 := mem_of_getCount_pos _ name hpos2
      rwa [hcntfold name] at h2
    have hmemfull : (name, categoryCount env ds.rows col name) ∈
        stableSort (fun a b => decide (b.2 ≤ a.2))
          (ds.rows.foldl (catStep env col) []) :=
      hperm.mem_iff.mpr hmem
    by_cases hin : (name, categoryCount env ds.rows col name) ∈
        (stableSort (fun a b => decide (b.2 ≤ a.2))
          (ds.rows.foldl (catStep env col) [])).take limit
    · left
      rw [hdef]
      exact hin
    · right
      obtain ⟨hlen, hall⟩ := mem_take_of_pairwise _ _ hpair _ limit
        hmemfull hin
      rw [hdef]
      refine ⟨hlen, ?_⟩
      intro p hp
      exact of_decide_eq_true (hall p hp)

/-- Counterexample to C9 as stated: two empty-string cells are missing
by the glossary definition, yet getCategoryCounts counts them as a
category named by the empty string (the code only excludes null and
undefined). -/
theorem C9_counterexample :
    getCategoryCounts envDemo dsEmptyStrCat "c" 10 = [("", 2), ("x", 1)] ∧
    isMissing (Value.str "") = true := by
  constructor <;> decide

/-- Witness for C9 at a concrete input: the theorem applied to a
two-row categorical column, with the membership hypothesis of the count
conjunct discharged at the entry for x and the positivity hypothesis of
the completeness conjunct discharged at the name x. -/
theorem C9_witness :
    (getCategoryCounts envDemo dsTwoCats "a" 10).length ≤ 10 ∧
    (("x", 1) : String × Nat).2 =
      categoryCount envDemo dsTwoCats.rows "a" "x" ∧
    (("x", categoryCount envDemo dsTwoCats.rows "a" "x") ∈
        getCategoryCounts envDemo dsTwoCats "a" 10 ∨
      ((getCategoryCounts envDemo dsTwoCats "a" 10).length = 10 ∧
        ∀ p ∈ getCategoryCounts envDemo dsTwoCats "a" 10,
          categoryCount envDemo dsTwoCats.rows "a" "x" ≤ p.2)) :=
  ⟨(C9_category_counts envDemo dsTwoCats "a" 10).1,
    (C9_category_counts envDemo dsTwoCats "a" 10).2.2.1 ("x", 1) (by decide),
    (C9_category_counts envDemo dsTwoCats "a" 10).2.2.2.2 "x" (by decide)⟩

/-! ### Claim C6 -/

theorem modeStep_skip (env : JsEnv) (st : ModeSt) (v : Value)
    (h : isMissing v = true) : modeStep env st v = st := by
  simp [modeStep, h]

theorem modeStep_maxC_pos (env : JsEnv) (st : ModeSt) (v : Value)
    (h : isMissing v = false) : 1 ≤ (modeStep env st v).maxC := by
  simp only [modeStep, h, Bool.false_eq_true, if_false]
  by_cases h2 : getCount (bumpCount st.counts (jsString env v))
      (jsString env v) > st.maxC
  · simp only [h2, if_true]
    rw [getCount_bump_self]
    omega
  · simp only [h2, if_false]
    rw [getCount_bump_self] at h2
    omega

theorem modeStep_maxC_mono (env : JsEnv) (st : ModeSt) (v : Value)
    (h : 1 ≤ st.maxC) : 1 ≤ (modeStep env st v).maxC := by
  by_cases hm : isMissing v
  · simp [modeStep, hm, h]
  · exact modeStep_maxC_pos env st v (by simpa using hm)

theorem modeStep_inv (env : JsEnv) (st : ModeSt) (v : Value)
    (hinv : 1 ≤ st.maxC → isMissing st.modeVal = false) :
    1 ≤ (modeStep env st v).maxC →
      isMissing (modeStep env st v).modeVal = false := by
  by_cases hm : isMissing v
  · simpa [modeStep, hm] using hinv
  · have hm2 : isMissing v = false := by simpa using hm
    simp only [modeStep, hm2, Bool.false_eq_true, if_false]
    by_cases h2 : getCount (bumpCount st.counts (jsString env v))
        (jsString env v) > st.maxC
    · simp only [h2, if_true]
      intro _
      exact hm2
    · simp only [h2, if_false]
      exact hinv

theorem modeFold_inv (env : JsEnv) (values : List Value) (st : ModeSt)
    (hinv : 1 ≤ st.maxC → isMissing st.modeVal = false) :
    1 ≤ (values.foldl (modeStep env) st).maxC →
      isMissing ((values.foldl (modeStep env) st).modeVal) = false := by
  induction values generalizing st with
  | nil => exact hinv
  | cons v rest ih => exact ih _ (modeStep_inv env st v hinv)

theorem modeFold_maxC_mono (env : JsEnv) (values : List Value) (st : ModeSt)
    (h : 1 ≤ st.maxC) : 1 ≤ (values.foldl (modeStep env) st).maxC := by
  induction values generalizing st with
  | nil => exact h
  | cons v rest ih => exact ih _ (modeStep_maxC_mono env st v h)

theorem modeFold_maxC_pos (env : JsEnv) (values : List Value) (st : ModeSt)
    (h : ∃ v ∈ values, isMissing v = false) :
    1 ≤ (values.foldl (modeStep env) st).maxC := by
  induction values generalizing st with
  | nil =>
      rcases h with ⟨v, hv, _⟩
      simp at hv
  | cons v rest ih =>
      rcases h with ⟨w, hw, hwm⟩
      rcases (by simpa using hw : w = v ∨ w ∈ rest) with h1 | h1
      · subst h1
        exact modeFold_maxC_mono env rest _ (modeStep_maxC_pos env st w hwm)
      · exact ih _ ⟨w, h1, hwm⟩

theorem modeFold_all_missing (env : JsEnv) (values : List Value)
    (st : ModeSt) (h : ∀ v ∈ values, isMissing v = true) :
    values.foldl (modeStep env) st = st := by
  induction values generalizing st with
  | nil => rfl
  | cons v rest ih =>
      rw [List.foldl_cons, modeStep_skip env st v (h v (by simp))]
      exact ih st (fun w hw => h w (by simp [hw]))

theorem computeFill_mode_not_missing (env : JsEnv) (values : List Value)
    (h : ∃ v ∈ values, isMissing v = false) :
    isMissing (computeFill env .mode values) = false := by
  have h1 := modeFold_maxC_pos env values ⟨[], 0, .null⟩ h
  have h2 := modeFold_inv env values ⟨[], 0, .null⟩
    (by intro h3; exact absurd h3 (by decide)) h1
  simpa [computeFill] using h2

theorem computeFill_mode_all_missing (env : JsEnv) (values : List Value)
    (h : ∀ v ∈ values, isMissing v = true) :
    computeFill env .mode values = Value.null := by
  simp [computeFill, modeFold_all_missing env values _ h]

theorem computeFill_mean_empty (env : JsEnv) (values : List Value)
    (h : numericBasis values = []) :
    computeFill env .mean values = Value.null := by
  simp [computeFill, h]

theorem computeFill_mean_nonempty (env : JsEnv) (values : List Value)
    (h : numericBasis values ≠ []) :
    ∃ q, computeFill env .mean values = Value.num q := by
  have hlen : 0 < (numericBasis values).length := List.length_pos.mpr h
  simp only [computeFill, hlen, if_pos]
  exact ⟨_, rfl⟩

theorem computeFill_median_empty (env : JsEnv) (values : List Value)
    (h : numericBasis values = []) :
    computeFill env .median values = Value.null := by
  simp [computeFill, h, stableSort]

theorem computeFill_median_nonempty (env : JsEnv) (values : List Value)
    (h : numericBasis values ≠ []) :
    ∃ q, computeFill env .median values = Value.num q := by
  have hlen : 0 <
      (stableSort (fun a b => decide (a ≤ b)) (numericBasis values)).length := by
    rw [(stableSort_perm _ _).length_eq]
    exact List.length_pos.mpr h
  simp only [computeFill, hlen, if_pos]
  by_cases hodd : (stableSort (fun a b => decide (a ≤ b))
      (numericBasis values)).length % 2 ≠ 0
  · rw [if_pos hodd]
    exact ⟨_, rfl⟩
  · rw [if_neg hodd]
    exact ⟨_, rfl⟩

/-- applyImpute on a fill strategy from the initial state: compute the
fill from the column values and overwrite the missing cells unless the
fill is null. -/
theorem applyImpute_fill (env : JsEnv) (ds : DataSet) (c : String)
    (strat : ImputationStrategy) (h : strat ≠ .remove_row) :
    applyImpute env (initSt ds) c strat =
      (if computeFill env strat (ds.rows.map (fun r => rowGet r c)) =
          Value.null then initSt ds
       else updWork (fun r =>
         if isMissing (rowGet r c) then
           rowSet r c
             (computeFill env strat (ds.rows.map (fun r => rowGet r c)))
         else r) (initSt ds)) := by
  have hv := initSt_work_map ds (fun r => rowGet r c)
  cases strat with
  | remove_row => exact absurd rfl h
  | mean =>
      simp only [applyImpute]
      rw [hv]
  | median =>
      simp only [applyImpute]
      rw [hv]
  | mode =>
      simp only [applyImpute]
      rw [hv]
  | fill_zero =>
      simp only [applyImpute]
      rw [hv]

/-- C6: after an impute with a fill strategy, the target column of the
returned dataset has no missing cell, unless the fill basis was empty
(no numeric non-NaN value for mean and median, no non-missing value for
mode), in which case the rows are returned unchanged. -/
theorem C6_impute_fill_completeness (env : JsEnv) (ds : DataSet)
    (c : String) (strat : ImputationStrategy) (hc : c ≠ "")
    (hstrat : strat ≠ ImputationStrategy.remove_row) :
    cleanOk (performDataCleaning env ds (imputePlan c strat)) = true ∧
    (imputeBasisEmpty env ds c strat = true →
      okRows (performDataCleaning env ds (imputePlan c strat)) = ds.rows) ∧
    (imputeBasisEmpty env ds c strat = false →
      ∀ r ∈ okRows (performDataCleaning env ds (imputePlan c strat)),
        isMissing (rowGet r c) = false) := by
  have hE : imputeBasisEmpty env ds c strat = true →
      computeFill env strat (ds.rows.map (fun r => rowGet r c)) =
        Value.null := by
    cases strat with
    | remove_row => exact absurd rfl hstrat
    | mean =>
        intro hbe
        exact computeFill_mean_empty env _ (by simpa [imputeBasisEmpty] using hbe)
    | median =>
        intro hbe
        exact computeFill_median_empty env _
          (by simpa [imputeBasisEmpty] using hbe)
    | mode =>
        intro hbe
        refine computeFill_mode_all_missing env _ ?_
        have hbe2 : (ds.rows.map (fun r => rowGet r c)).all
            (fun v => isMissing v) = true := by
          simpa only [imputeBasisEmpty] using hbe
        have h2 := (List.all_eq_true).mp hbe2
        intro v hv
        simpa using h2 v hv
    | fill_zero =>
        intro hbe
        simp [imputeBasisEmpty] at hbe
  have hNE : imputeBasisEmpty env ds c strat = false →
      isMissing (computeFill env strat (ds.rows.map (fun r => rowGet r c))) =
        false := by
    cases strat with
    | remove_row => exact absurd rfl hstrat
    | mean =>
        intro hbe
        have hne : numericBasis (ds.rows.map (fun r => rowGet r c)) ≠ [] := by
          simpa [imputeBasisEmpty] using hbe
        rcases computeFill_mean_nonempty env _ hne with ⟨q, hq⟩
        simp [hq, isMissing]
    | median =>
        intro hbe
        have hne : numericBasis (ds.rows.map (fun r => rowGet r c)) ≠ [] := by
          simpa [imputeBasisEmpty] using hbe
        rcases computeFill_median_nonempty env _ hne with ⟨q, hq⟩
        simp [hq, isMissing]
    | mode =>
        intro hbe
        refine computeFill_mode_not_missing env _ ?_
        simp only [imputeBasisEmpty] at hbe
        have h2 : ¬((ds.rows.map (fun r => rowGet r c)).all
            (fun v => isMissing v) = true) := by
          simp [hbe]
        rw [List.all_eq_true] at h2
        push_neg at h2
        rcases h2 with ⟨v, hv, hvm⟩
        exact ⟨v, hv, by simpa using hvm⟩
    | fill_zero =>
        intro _
        simp [computeFill, isMissing]
  have ha : applyAction env (initSt ds)
      { type := .impute, column := some c, strategy := some strat } =
      .ok (applyImpute env (initSt ds) c strat) := by
    simp [applyAction, hc]
  rw [applyImpute_fill env ds c strat hstrat] at ha
  have hplan : imputePlan c strat =
      ⟨[{ type := .impute, column := some c, strategy := some strat }]⟩ := rfl
  by_cases hfv : computeFill env strat (ds.rows.map (fun r => rowGet r c)) =
      Value.null
  · rw [if_pos hfv] at ha
    have hres := performDataCleaning_single_ok env ds _ _ _ (by simp) ha
      (initSt_work_rows ds)
    rw [hplan, hres]
    refine ⟨rfl, ?_, ?_⟩
    · intro _
      simp [okRows_ok, rebuildDataSet_rows]
    · intro hbe
      have h2 := hNE hbe
      rw [hfv] at h2
      exact absurd h2 (by decide)
  · rw [if_neg hfv] at ha
    have hres := performDataCleaning_single_ok env ds _ _ _ (by simp) ha
      (updWork_initSt_rows ds _)
    rw [hplan, hres]
    refine ⟨rfl, ?_, ?_⟩
    · intro hbe
      exact absurd (hE hbe) hfv
    · intro hbe r hr
      simp only [okRows_ok, rebuildDataSet_rows] at hr
      rcases List.mem_map.mp hr with ⟨r0, _, rfl⟩
      by_cases hm : isMissing (rowGet r0 c)
      · rw [if_pos hm, rowGet_rowSet_same]
        exact hNE hbe
      · rw [if_neg hm]
        simpa using hm

/-- Witness for C6 at a concrete input: impute mean on a column with a
null and a numeric cell, hypotheses discharged. -/
theorem C6_witness :
    cleanOk (performDataCleaning envDemo dsOneMissing
      (imputePlan "a" ImputationStrategy.mean)) = true ∧
    (imputeBasisEmpty envDemo dsOneMissing "a" ImputationStrategy.mean = true →
      okRows (performDataCleaning envDemo dsOneMissing
        (imputePlan "a" ImputationStrategy.mean)) = dsOneMissing.rows) ∧
    (imputeBasisEmpty envDemo dsOneMissing "a" ImputationStrategy.mean = false →
      ∀ r ∈ okRows (performDataCleaning envDemo dsOneMissing
        (imputePlan "a" ImputationStrategy.mean)),
        isMissing (rowGet r "a") = false) :=
  C6_impute_fill_completeness envDemo dsOneMissing "a"
    ImputationStrategy.mean (by decide) (by decide)

/-! ### Claim C1 -/

theorem foldlM_nonMutating (env : JsEnv) (actions : List CleaningAction)
    (st : CleanSt) (h : ∀ a ∈ actions, nonMutating a = true) :
    ∃ st2, actions.foldlM (applyAction env) st = .ok st2 ∧
      st2.orig = st.orig := by
  induction actions generalizing st with
  | nil => exact ⟨st, rfl, rfl⟩
  | cons a rest ih =>
      have ha := h a (by simp)
      have hstep : ∃ st1, applyAction env st a = .ok st1 ∧
          st1.orig = st.orig := by
        cases hty : a.type with
        | drop_column => simp [nonMutating, hty] at ha
        | cast_type => simp [nonMutating, hty] at ha
        | remove_duplicates =>
            refine ⟨{ orig := st.orig
                      work := dedupWork st.work
                      headers := st.headers }, ?_, rfl⟩
            simp [applyAction, hty]
        | normalize_headers =>
            refine ⟨{ orig := st.orig
                      work := st.work.map
                        (fun e => ((none : Option Nat), normRow st.headers e.2))
                      headers := st.headers.map normHeader }, ?_, rfl⟩
            simp [applyAction, hty]
        | impute =>
            have hs : a.strategy = some ImputationStrategy.remove_row := by
              simpa [nonMutating, hty] using ha
            cases hcol : a.column with
            | none => exact ⟨st, by simp [applyAction, hty, hcol], rfl⟩
            | some c =>
                by_cases hce : c = ""
                · exact ⟨st, by simp [applyAction, hty, hcol, hs, hce], rfl⟩
                · exact ⟨applyImpute env st c ImputationStrategy.remove_row,
                    by simp [applyAction, hty, hcol, hs, hce], rfl⟩
      rcases hstep with ⟨st1, hst1, horig⟩
      rcases ih st1 (fun b hb => h b (by simp [hb])) with ⟨st2, hfold, horig2⟩
      refine ⟨st2, ?_, horig2.trans horig⟩
      have hcons : (a :: rest).foldlM (applyAction env) st =
          applyAction env st a >>= fun s2 => rest.foldlM (applyAction env) s2 :=
        rfl
      rw [hcons, hst1]
      exact hfold

/-- C1 (amended): performDataCleaning shares the input dataset's row
objects with its working array, so only plans whose actions never write
through those references (remove_duplicates, normalize_headers, impute
with remove_row) leave the input dataset's rows unchanged; for such
plans the call succeeds and the original rows read back exactly as
before. -/
theorem C1_nonmutating_plans (env : JsEnv) (ds : DataSet)
    (plan : CleaningPlan) (h : ∀ a ∈ plan.actions, nonMutating a = true) :
    cleanOk (performDataCleaning env ds plan) = true ∧
    okOrig (performDataCleaning env ds plan) = ds.rows := by
  have hfilter : plan.actions.filter
      (fun a => decide (a.type = CleaningActionType.drop_column)) = [] := by
    rw [List.filter_eq_nil_iff]
    intro a hmem
    have hna := h a hmem
    cases hty : a.type <;> simp [hty] <;> simp [nonMutating, hty] at hna
  rcases foldlM_nonMutating env plan.actions (initSt ds) h with
    ⟨st2, hfold, horig⟩
  have hres : performDataCleaning env ds plan =
      .ok (rebuildDataSet env (st2.work.map (fun e => e.2))
        ds.fileName ds.fileSize, st2.orig) := by
    simp only [performDataCleaning, hfilter, List.foldl, hfold]
  rw [hres]
  exact ⟨rfl, by simp [okOrig_ok, horig, initSt]⟩

/-- Counterexample to C1 as stated: a fill_zero imputation on a column
holding a null cell succeeds, but afterwards the input dataset's row
object holds 0 where it held null - the previous Dataset value does not
survive as an undo reference. -/
theorem C1_counterexample :
    cleanOk (performDataCleaning envDemo dsMut
      (imputePlan "a" ImputationStrategy.fill_zero)) = true ∧
    okOrig (performDataCleaning envDemo dsMut
      (imputePlan "a" ImputationStrategy.fill_zero)) ≠ dsMut.rows := by
  constructor <;> decide

/-- Witness for C1 at a concrete input: a deduplication plan leaves the
two original row objects untouched. -/
theorem C1_witness :
    cleanOk (performDataCleaning envDemo dsDupPair dedupPlan) = true ∧
    okOrig (performDataCleaning envDemo dsDupPair dedupPlan) =
      dsDupPair.rows :=
  C1_nonmutating_plans envDemo dsDupPair dedupPlan (by decide)

/-! ### Claim C4 -/

theorem find?_map {α β : Type} (f : α → β) (p : β → Bool) (l : List α) :
    (l.map f).find? p = (l.find? (fun a => p (f a))).map f := by
  induction l with
  | nil => rfl
  | cons a rest ih =>
      cases hpa : p (f a) <;> simp [List.find?, hpa, ih]

theorem dedupWorkAux_sublist (seen : List (List (String × Value)))
    (l : List (Option Nat × DataRow)) :
    (dedupWorkAux seen l).Sublist l := by
  induction l generalizing seen with
  | nil => simp [dedupWorkAux]
  | cons e rest ih =>
      by_cases h : rowSig e.2 ∈ seen
      · simp only [dedupWorkAux, if_pos h]
        exact (ih seen).cons e
      · simp only [dedupWorkAux, if_neg h]
        exact (ih _).cons₂ e

theorem dedupWorkAux_nodup (seen : List (List (String × Value)))
    (l : List (Option Nat × DataRow)) :
    ((dedupWorkAux seen l).map (fun e => rowSig e.2)).Nodup ∧
    ∀ x ∈ (dedupWorkAux seen l).map (fun e => rowSig e.2), x ∉ seen := by
  induction l generalizing seen with
  | nil => exact ⟨by simp [dedupWorkAux], by simp [dedupWorkAux]⟩
  | cons e rest ih =>
      by_cases h : rowSig e.2 ∈ seen
      · simp only [dedupWorkAux, if_pos h]
        exact ih seen
      · simp only [dedupWorkAux, if_neg h]
        obtain ⟨ihn, ihd⟩ := ih (rowSig e.2 :: seen)
        refine ⟨?_, ?_⟩
        · simp only [List.map_cons, List.nodup_cons]
          exact ⟨fun hmem => (ihd _ hmem) (by simp), ihn⟩
        · intro x hx
          rcases (by simpa using hx :
              x = rowSig e.2 ∨
                x ∈ (dedupWorkAux (rowSig e.2 :: seen) rest).map
                  (fun e => rowSig e.2)) with h1 | h1
          · rw [h1]
            exact h
          · intro hs
            exact (ihd x h1) (by simp [hs])

theorem dedupWorkAux_complete (seen : List (List (String × Value)))
    (l : List (Option Nat × DataRow)) (e : Option Nat × DataRow)
    (he : e ∈ l) :
    rowSig e.2 ∈ seen ∨
      ∃ e2 ∈ dedupWorkAux seen l, rowSig e2.2 = rowSig e.2 := by
  induction l generalizing seen with
  | nil => simp at he
  | cons f rest ih =>
      by_cases h : rowSig f.2 ∈ seen
      · simp only [dedupWorkAux, if_pos h]
        rcases (by simpa using he : e = f ∨ e ∈ rest) with h1 | h1
        · rw [h1]
          exact Or.inl h
        · exact ih seen h1
      · simp only [dedupWorkAux, if_neg h]
        rcases (by simpa using he : e = f ∨ e ∈ rest) with h1 | h1
        · exact Or.inr ⟨f, by simp, by rw [h1]⟩
        · rcases ih (rowSig f.2 :: seen) h1 with h2 | ⟨e2, he2, hsig⟩
          · rcases (by simpa using h2 :
                rowSig e.2 = rowSig f.2 ∨ rowSig e.2 ∈ seen) with h3 | h3
            · exact Or.inr ⟨f, by simp, h3.symm⟩
            · exact Or.inl h3
          · exact Or.inr ⟨e2, by simp [he2], hsig⟩

theorem dedupWorkAux_firstOcc (seen : List (List (String × Value)))
    (l : List (Option Nat × DataRow)) (e2 : Option Nat × DataRow)
    (he2 : e2 ∈ dedupWorkAux seen l) :
    rowSig e2.2 ∉ seen ∧
    l.find? (fun e => decide (rowSig e.2 = rowSig e2.2)) = some e2 := by
  induction l generalizing seen with
  | nil => simp [dedupWorkAux] at he2
  | cons f rest ih =>
      by_cases h : rowSig f.2 ∈ seen
      · rw [show dedupWorkAux seen (f :: rest) = dedupWorkAux seen rest
          from by simp [dedupWorkAux, if_pos h]] at he2
        obtain ⟨hnotseen, hfind⟩ := ih seen he2
        have hne : ¬(rowSig f.2 = rowSig e2.2) := fun heq =>
          hnotseen (heq ▸ h)
        refine ⟨hnotseen, ?_⟩
        simp only [List.find?]
        rw [show (decide (rowSig f.2 = rowSig e2.2)) = false by simpa using hne]
        exact hfind
      · rw [show dedupWorkAux seen (f :: rest) =
            f :: dedupWorkAux (rowSig f.2 :: seen) rest
          from by simp [dedupWorkAux, if_neg h]] at he2
        rcases (by simpa using he2 :
            e2 = f ∨ e2 ∈ dedupWorkAux (rowSig f.2 :: seen) rest) with h1 | h1
        · subst h1
          refine ⟨h, ?_⟩
          simp [List.find?]
        · obtain ⟨hnot, hfind⟩ := ih (rowSig f.2 :: seen) h1
          have hne : ¬(rowSig f.2 = rowSig e2.2) := fun heq =>
            hnot (by simp [heq.symm])
          refine ⟨fun hs => hnot (by simp [hs]), ?_⟩
          simp only [List.find?]
          rw [show (decide (rowSig f.2 = rowSig e2.2)) = false
            by simpa using hne]
          exact hfind

/-- C4 (amended): remove_duplicates keeps a subsequence of the rows in
which the stringify signatures (field order sensitive, undefined
properties dropped, NaN as null) are pairwise distinct; every input row
has a signature-equal kept row, and every kept row is the first input
row bearing its signature.  Contrary to the claim, equality is NOT
order-independent: two rows with equal content but different stored
field order serialize differently and both survive. -/
theorem C4_dedup_first_occurrence (env : JsEnv) (ds : DataSet) :
    cleanOk (performDataCleaning env ds dedupPlan) = true ∧
    (okRows (performDataCleaning env ds dedupPlan)).Sublist ds.rows ∧
    ((okRows (performDataCleaning env ds dedupPlan)).map rowSig).Nodup ∧
    (∀ r ∈ ds.rows, ∃ r2 ∈ okRows (performDataCleaning env ds dedupPlan),
      rowSig r2 = rowSig r) ∧
    (∀ r2 ∈ okRows (performDataCleaning env ds dedupPlan),
      ds.rows.find? (fun r => decide (rowSig r = rowSig r2)) = some r2) := by
  have ha : applyAction env (initSt ds) { type := .remove_duplicates } =
      .ok { orig := (initSt ds).orig
            work := dedupWork (initSt ds).work
            headers := (initSt ds).headers } := by
    simp [applyAction]
  have hres := performDataCleaning_single_ok env ds _ _ _ (by simp) ha rfl
  have hplan : dedupPlan = ⟨[{ type := .remove_duplicates }]⟩ := rfl
  rw [hplan, hres]
  have hworkrows := initSt_work_rows ds
  refine ⟨rfl, ?_, ?_, ?_, ?_⟩
  · simp only [okRows_ok, rebuildDataSet_rows]
    rw [← hworkrows]
    exact (dedupWorkAux_sublist [] _).map _
  · simp only [okRows_ok, rebuildDataSet_rows, List.map_map]
    exact (dedupWorkAux_nodup [] _).1
  · intro r hr
    rw [← hworkrows] at hr
    rcases List.mem_map.mp hr with ⟨e, he, hre⟩
    rcases dedupWorkAux_complete [] _ e he with h2 | ⟨e2, he2, hsig⟩
    · simp at h2
    · refine ⟨e2.2, ?_, ?_⟩
      · simp only [okRows_ok, rebuildDataSet_rows]
        exact List.mem_map.mpr ⟨e2, he2, rfl⟩
      · rw [hsig, hre]
  · intro r2 hr2
    simp only [okRows_ok, rebuildDataSet_rows] at hr2
    rcases List.mem_map.mp hr2 with ⟨e2, he2, hre2⟩
    obtain ⟨_, hfind⟩ := dedupWorkAux_firstOcc [] _ e2 he2
    rw [← hworkrows, find?_map]
    subst hre2
    rw [hfind]
    rfl

/-- Counterexample to C4 as stated: two rows with identical content in
different stored field order both survive remove_duplicates, because
JSON.stringify serializes fields in stored order. -/
theorem C4_counterexample :
    cleanOk (performDataCleaning envDemo dsSwap dedupPlan) = true ∧
    okRows (performDataCleaning envDemo dsSwap dedupPlan) = dsSwap.rows ∧
    dsSwap.rows.length = 2 ∧
    contentEq (dsSwap.rows.getD 0 []) (dsSwap.rows.getD 1 []) = true := by
  refine ⟨?_, ?_, ?_, ?_⟩ <;> decide

/-- Witness for C4 at a concrete input: on two identical rows the kept
rows form a subsequence and the duplicate content is represented. -/
theorem C4_witness :
    (okRows (performDataCleaning envDemo dsDupPair dedupPlan)).Sublist
      dsDupPair.rows ∧
    (∃ r2 ∈ okRows (performDataCleaning envDemo dsDupPair dedupPlan),
      rowSig r2 = rowSig [("a", Value.num 1)]) :=
  ⟨(C4_dedup_first_occurrence envDemo dsDupPair).2.1,
    (C4_dedup_first_occurrence envDemo dsDupPair).2.2.2.1
      [("a", Value.num 1)] (by decide)⟩

/-! ### Claim C8 -/

/-- The min_max arm on a column with usable values and non-degenerate
range rescales exactly the cells whose coercion is a number. -/
theorem applyTransform_min_max (env : JsEnv) (rows : List DataRow)
    (headers : List String) (col : String)
    (hne : coercedColumn env rows col ≠ [])
    (hmm2 : ratMax (coercedColumn env rows col) ≠
      ratMin (coercedColumn env rows col)) :
    applyTransform env (rows, headers) ⟨col, TransformMethod.min_max⟩ =
      (rows.map (fun r =>
        match jsToNumber env (rowGet r col) with
        | some w => rowSet r col (Value.num
            ((w - ratMin (coercedColumn env rows col)) /
             (ratMax (coercedColumn env rows col) -
              ratMin (coercedColumn env rows col))))
        | none => r), headers) := by
  simp only [applyTransform]
  rw [if_neg hne, if_pos hmm2]

/-- C8 (amended): after min_max with a nonempty coerced value list and
max distinct from min, a cell is left untouched exactly when its JS
numeric coercion is NaN (undefined or unparseable text); every cell
that coerces - null coerces to 0, booleans to 0 or 1, numeric text to
its value - is overwritten with the rescaled number and participates in
the min and max.  The claim's list (null, boolean, numeric text are
untouched) fails. -/
theorem C8_min_max_cells (env : JsEnv) (ds : DataSet) (col : String)
    (hne : coercedColumn env (ds.rows.map jsonCopyRow) col ≠ [])
    (hmm2 : ratMax (coercedColumn env (ds.rows.map jsonCopyRow) col) ≠
      ratMin (coercedColumn env (ds.rows.map jsonCopyRow) col)) :
    List.Forall₂ (fun rc r2 =>
      (jsToNumber env (rowGet rc col) = none →
        rowGet r2 col = rowGet rc col) ∧
      (∀ q, jsToNumber env (rowGet rc col) = some q →
        rowGet r2 col = Value.num
          ((q - ratMin (coercedColumn env (ds.rows.map jsonCopyRow) col)) /
           (ratMax (coercedColumn env (ds.rows.map jsonCopyRow) col) -
            ratMin (coercedColumn env (ds.rows.map jsonCopyRow) col)))))
      (ds.rows.map jsonCopyRow)
      (performDataTransformation env ds
        [⟨col, TransformMethod.min_max⟩]).rows := by
  have hrows : (performDataTransformation env ds
      [⟨col, TransformMethod.min_max⟩]).rows =
      (applyTransform env (ds.rows.map jsonCopyRow, ds.headers)
        ⟨col, TransformMethod.min_max⟩).1 := rfl
  rw [hrows, applyTransform_min_max env _ ds.headers col hne hmm2]
  apply forall₂_map_self
  intro rc hrc
  constructor
  · intro hj
    simp [hj]
  · intro q hj
    simp [hj, rowGet_rowSet_same]

/-- Counterexample to C8 as stated: a null cell (a non-numeric value in
the claim's list) is not left untouched by min_max - Number(null) is 0,
so the cell joins the min computation and is overwritten with a
number. -/
theorem C8_counterexample :
    rowGet (dsMinMaxNull.rows.getD 2 []) "x" = Value.null ∧
    rowGet ((performDataTransformation envDemo dsMinMaxNull
      [⟨"x", TransformMethod.min_max⟩]).rows.getD 2 []) "x" ≠ Value.null := by
  constructor <;> decide

/-- Witness for C8 at a concrete input: a column holding 0, 2 and an
unparseable string, hypotheses discharged. -/
theorem C8_witness :
    List.Forall₂ (fun rc r2 =>
      (jsToNumber envDemo (rowGet rc "x") = none →
        rowGet r2 "x" = rowGet rc "x") ∧
      (∀ q, jsToNumber envDemo (rowGet rc "x") = some q →
        rowGet r2 "x" = Value.num
          ((q - ratMin (coercedColumn envDemo
              (dsMinMaxText.rows.map jsonCopyRow) "x")) /
           (ratMax (coercedColumn envDemo
              (dsMinMaxText.rows.map jsonCopyRow) "x") -
            ratMin (coercedColumn envDemo
              (dsMinMaxText.rows.map jsonCopyRow) "x")))))
      (dsMinMaxText.rows.map jsonCopyRow)
      (performDataTransformation envDemo dsMinMaxText
        [⟨"x", TransformMethod.min_max⟩]).rows :=
  C8_min_max_cells envDemo dsMinMaxText "x" (by decide) (by decide)

/-! ### Claim C7 -/

theorem oneHotHeader_ne_col (col val : String) :
    oneHotHeader col val ≠ col := by
  intro h
  have hl := congrArg String.length h
  rw [oneHotHeader, String.length_append, String.length_append] at hl
  have h1 : ("_" : String).length = 1 := rfl
  rw [h1] at hl
  omega

/-- The rows component of the one_hot fold is the per-row fold mapped
over the rows. -/
theorem oneHot_fold_rows (env : JsEnv) (col : String) (vals : List String)
    (rows : List DataRow) (headers : List String) :
    (vals.foldl (fun st val =>
      (st.1.map (fun r => oneHotRowStep env col r val),
       st.2 ++ [oneHotHeader col val])) (rows, headers)).1 =
    rows.map (fun r => vals.foldl (oneHotRowStep env col) r) := by
  induction vals generalizing rows headers with
  | nil => simp
  | cons v vs ih =>
      simp only [List.foldl_cons]
      rw [ih]
      simp [List.map_map]

/-- The original column is never touched by the indicator writes. -/
theorem oneHotRow_get_col (env : JsEnv) (col : String) (r : DataRow)
    (vals : List String) :
    rowGet (vals.foldl (oneHotRowStep env col) r) col = rowGet r col := by
  induction vals generalizing r with
  | nil => rfl
  | cons v vs ih =>
      rw [List.foldl_cons, ih]
      exact rowGet_rowSet_other r _ col _ (oneHotHeader_ne_col col v).symm

/-- A key none of the processed values generates is untouched. -/
theorem oneHotRow_get_unset (env : JsEnv) (col : String) (r : DataRow)
    (vals : List String) (k : String)
    (hk : k ∉ vals.map (oneHotHeader col)) :
    rowGet (vals.foldl (oneHotRowStep env col) r) k = rowGet r k := by
  induction vals generalizing r with
  | nil => rfl
  | cons v vs ih =>
      have hk2 : ¬(k = oneHotHeader col v) := by
        intro h2
        rw [h2] at hk
        exact hk (List.mem_cons_self _ _)
      have hktail : k ∉ vs.map (oneHotHeader col) :=
        fun h2 => hk (List.mem_cons_of_mem _ h2)
      rw [List.foldl_cons, ih _ hktail]
      exact rowGet_rowSet_other r _ k _ hk2

/-- Reading back the indicator of a processed value, provided the
generated header names are pairwise distinct. -/
theorem oneHotRow_get_indicator (env : JsEnv) (col : String) (r : DataRow)
    (vals : List String) (val : String)
    (hnd : (vals.map (oneHotHeader col)).Nodup) (hv : val ∈ vals) :
    rowGet (vals.foldl (oneHotRowStep env col) r) (oneHotHeader col val) =
      (if jsString env (rowGet r col) = val then Value.num 1
       else Value.num 0) := by
  induction vals generalizing r with
  | nil => simp at hv
  | cons w ws ih =>
      rw [List.foldl_cons]
      obtain ⟨hw1, hws⟩ : (∀ x ∈ ws,
          ¬oneHotHeader col x = oneHotHeader col w) ∧
          (ws.map (oneHotHeader col)).Nodup := by simpa using hnd
      have hw : oneHotHeader col w ∉ ws.map (oneHotHeader col) := by
        intro hmem
        rcases List.mem_map.mp hmem with ⟨a, ha, he⟩
        exact hw1 a ha he
      by_cases h1 : val = w
      · subst h1
        rw [oneHotRow_get_unset env col _ ws _ hw, oneHotRowStep,
          rowGet_rowSet_same]
      · have hv2 : val ∈ ws := by
          rcases (by simpa using hv) with h2 | h2
          · exact absurd h2 h1
          · exact h2
        rw [ih _ hws hv2, oneHotRowStep,
          rowGet_rowSet_other r _ col _ (oneHotHeader_ne_col col w).symm]

/-- The generated key of every processed value is present. -/
theorem oneHotRow_keys_mono (env : JsEnv) (col : String) (r : DataRow)
    (vals : List String) (k : String) (h : k ∈ rowKeys r) :
    k ∈ rowKeys (vals.foldl (oneHotRowStep env col) r) := by
  induction vals generalizing r with
  | nil => exact h
  | cons v vs ih =>
      rw [List.foldl_cons]
      exact ih _ (mem_rowKeys_rowSet_of_mem r _ k _ h)

theorem oneHotRow_keys (env : JsEnv) (col : String) (r : DataRow)
    (vals : List String) (val : String) (hv : val ∈ vals) :
    oneHotHeader col val ∈ rowKeys (vals.foldl (oneHotRowStep env col) r) := by
  induction vals generalizing r with
  | nil => simp at hv
  | cons w ws ih =>
      rw [List.foldl_cons]
      by_cases h1 : val = w
      · subst h1
        exact oneHotRow_keys_mono env col _ ws _
          (mem_rowKeys_rowSet_self r _ _)
      · have hv2 : val ∈ ws := by
          rcases (by simpa using hv) with h2 | h2
          · exact absurd h2 h1
          · exact h2
        exact ih _ hv2

theorem mem_uniqueStrings (env : JsEnv) (rows : List DataRow) (col : String)
    (r : DataRow) (hr : r ∈ rows) :
    jsString env (rowGet r col) ∈ uniqueStrings env rows col := by
  unfold uniqueStrings
  rw [(stableSort_perm _ _).mem_iff, List.mem_dedup]
  exact List.mem_map.mpr ⟨r, hr, rfl⟩

theorem uniqueStrings_nodup (env : JsEnv) (rows : List DataRow)
    (col : String) : (uniqueStrings env rows col).Nodup := by
  unfold uniqueStrings
  exact ((stableSort_perm _ _).nodup_iff).mpr (List.nodup_dedup _)

theorem sum_indicator (l : List String) (s : String) (hnd : l.Nodup)
    (hs : s ∈ l) :
    (l.map (fun val => if s = val then (1 : ℚ) else 0)).sum = 1 := by
  induction l with
  | nil => simp at hs
  | cons w ws ih =>
      obtain ⟨hw, hws⟩ := List.nodup_cons.mp hnd
      by_cases hsw : s = w
      · subst hsw
        have hz : (ws.map (fun val => if s = val then (1 : ℚ) else 0)).sum
            = 0 := by
          apply List.sum_eq_zero
          intro x hx
          rcases List.mem_map.mp hx with ⟨val, hval, hxe⟩
          have hne : ¬(s = val) := fun h2 => hw (h2 ▸ hval)
          rw [← hxe]
          simp [hne]
        simp [hz]
      · have hs2 : s ∈ ws := by
          rcases (by simpa using hs) with h2 | h2
          · exact absurd h2 hsw
          · exact h2
        simp [hsw, ih hws hs2]

/-- C7 (amended): for a one_hot action on a column with at most 50
distinct canonical values whose sanitized column names are pairwise
distinct, the result contains one generated indicator column per
distinct value and the indicators of every row sum to exactly 1.  When
two distinct values sanitize to the same name (the hypothesis the claim
omits), the later value's pass overwrites the earlier column and a
row's indicators can sum to 0, see the counterexample. -/
theorem C7_one_hot_sum (env : JsEnv) (ds : DataSet) (col : String)
    (h50 : (uniqueStrings env (ds.rows.map jsonCopyRow) col).length ≤ 50)
    (hinj : ((uniqueStrings env (ds.rows.map jsonCopyRow) col).map
      (oneHotHeader col)).Nodup) :
    (∀ val ∈ uniqueStrings env (ds.rows.map jsonCopyRow) col,
      oneHotHeader col val ∈
        (performDataTransformation env ds
          [⟨col, TransformMethod.one_hot⟩]).headers) ∧
    (∀ r2 ∈ (performDataTransformation env ds
        [⟨col, TransformMethod.one_hot⟩]).rows,
      indicatorSum env r2 col
        (uniqueStrings env (ds.rows.map jsonCopyRow) col) = 1) := by
  have hnotgt : ¬((uniqueStrings env (ds.rows.map jsonCopyRow) col).length
      > 50) := by omega
  have happ : applyTransform env (ds.rows.map jsonCopyRow, ds.headers)
      ⟨col, TransformMethod.one_hot⟩ =
      (uniqueStrings env (ds.rows.map jsonCopyRow) col).foldl
        (fun st val =>
          (st.1.map (fun r => oneHotRowStep env col r val),
           st.2 ++ [oneHotHeader col val]))
        (ds.rows.map jsonCopyRow, ds.headers) := by
    simp only [applyTransform]
    rw [if_neg hnotgt]
  have hres1 : (applyTransform env (ds.rows.map jsonCopyRow, ds.headers)
      ⟨col, TransformMethod.one_hot⟩).1 =
      (ds.rows.map jsonCopyRow).map (fun r =>
        (uniqueStrings env (ds.rows.map jsonCopyRow) col).foldl
          (oneHotRowStep env col) r) := by
    rw [happ, oneHot_fold_rows]
  have hrows_eq : (performDataTransformation env ds
      [⟨col, TransformMethod.one_hot⟩]).rows =
      (ds.rows.map jsonCopyRow).map (fun r =>
        (uniqueStrings env (ds.rows.map jsonCopyRow) col).foldl
          (oneHotRowStep env col) r) := by
    rw [show (performDataTransformation env ds
      [⟨col, TransformMethod.one_hot⟩]).rows =
      (applyTransform env (ds.rows.map jsonCopyRow, ds.headers)
        ⟨col, TransformMethod.one_hot⟩).1 from rfl, hres1]
  constructor
  · intro val hval
    cases hc : ds.rows.map jsonCopyRow with
    | nil =>
        rw [hc] at hval
        simp [uniqueStrings, stableSort] at hval
    | cons r0 rest =>
        have hheaders : (performDataTransformation env ds
            [⟨col, TransformMethod.one_hot⟩]).headers =
            match (applyTransform env (ds.rows.map jsonCopyRow, ds.headers)
              ⟨col, TransformMethod.one_hot⟩).1 with
            | [] => []
            | r :: _ => rowKeys r := rfl
        rw [hc] at hval
        rw [hheaders, hres1, hc]
        simp only [List.map_cons]
        exact oneHotRow_keys env col r0 _ val hval
  · intro r2 hr2
    rw [hrows_eq] at hr2
    rcases List.mem_map.mp hr2 with ⟨rc, hrc, hre⟩
    subst hre
    unfold indicatorSum
    have hmap : (uniqueStrings env (ds.rows.map jsonCopyRow) col).map
        (fun val =>
          match rowGet ((uniqueStrings env (ds.rows.map jsonCopyRow) col).foldl
            (oneHotRowStep env col) rc) (oneHotHeader col val) with
          | Value.num q => q
          | _ => 0) =
        (uniqueStrings env (ds.rows.map jsonCopyRow) col).map
          (fun val => if jsString env (rowGet rc col) = val then (1 : ℚ)
            else 0) := by
      apply List.map_congr_left
      intro val hval
      rw [oneHotRow_get_indicator env col rc _ val hinj hval]
      by_cases hcond : jsString env (rowGet rc col) = val
      · simp [hcond]
      · simp [hcond]
    rw [hmap]
    exact sum_indicator _ _ (uniqueStrings_nodup env _ col)
      (mem_uniqueStrings env _ col rc hrc)

/-- Counterexample to C7 as stated: the column holds the two distinct
values a.b and a_b (u = 2 ≤ 50), but both sanitize to the same column
name, the second pass overwrites the first, and the first row's
indicators over the two distinct values sum to 0, not 1. -/
theorem C7_counterexample :
    (uniqueStrings envDemo (dsClash.rows.map jsonCopyRow) "c").length = 2 ∧
    indicatorSum envDemo
      ((performDataTransformation envDemo dsClash
        [⟨"c", TransformMethod.one_hot⟩]).rows.getD 0 []) "c"
      (uniqueStrings envDemo (dsClash.rows.map jsonCopyRow) "c") = 0 := by
  have hu : uniqueStrings envDemo (dsClash.rows.map jsonCopyRow) "c" =
      ["a.b", "a_b"] := by decide
  have h2 : rowGet ((performDataTransformation envDemo dsClash
      [⟨"c", TransformMethod.one_hot⟩]).rows.getD 0 [])
      (oneHotHeader "c" "a.b") = Value.num 0 := by decide
  have h3 : rowGet ((performDataTransformation envDemo dsClash
      [⟨"c", TransformMethod.one_hot⟩]).rows.getD 0 [])
      (oneHotHeader "c" "a_b") = Value.num 0 := by decide
  refine ⟨by rw [hu]; rfl, ?_⟩
  rw [indicatorSum, hu]
  simp only [List.map_cons, List.map_nil, h2, h3]
  simp

/-- Witness for C7 at a concrete input: two distinct values a and b
with distinct sanitized names, hypotheses discharged. -/
theorem C7_witness :
    (∀ val ∈ uniqueStrings envDemo (dsTwoVals.rows.map jsonCopyRow) "c",
      oneHotHeader "c" val ∈
        (performDataTransformation envDemo dsTwoVals
          [⟨"c", TransformMethod.one_hot⟩]).headers) ∧
    (∀ r2 ∈ (performDataTransformation envDemo dsTwoVals
        [⟨"c", TransformMethod.one_hot⟩]).rows,
      indicatorSum envDemo r2 "c"
        (uniqueStrings envDemo (dsTwoVals.rows.map jsonCopyRow) "c") = 1) :=
  C7_one_hot_sum envDemo dsTwoVals "c" (by decide) (by decide)

/-! ### Claim C5 -/

theorem anovaStep_keys (env : JsEnv) (target gcol : String)
    (groups : List (String × List ℚ)) (r : DataRow) :
    (anovaStep env target gcol groups r).map (fun p => p.1) =
      (match jsToNumber env (rowGet r target) with
      | some _ =>
          if jsString env (rowGet r gcol) ∈ groups.map (fun p => p.1) then
            groups.map (fun p => p.1)
          else groups.map (fun p => p.1) ++ [jsString env (rowGet r gcol)]
      | none => groups.map (fun p => p.1)) := by
  cases hj : jsToNumber env (rowGet r target) with
  | none => simp [anovaStep, hj]
  | some v =>
      simp only [anovaStep, hj]
      by_cases hmem : jsString env (rowGet r gcol) ∈ groups.map (fun p => p.1)
      · have hsome : (groups.find? (fun p =>
            decide (p.1 = jsString env (rowGet r gcol)))).isSome := by
          rw [List.find?_isSome]
          rcases List.mem_map.mp hmem with ⟨p, hp, he⟩
          exact ⟨p, hp, by simp [he]⟩
        rcases Option.isSome_iff_exists.mp hsome with ⟨p0, hp0⟩
        rw [hp0, if_pos hmem]
        rw [List.map_map]
        apply List.map_congr_left
        intro p _
        by_cases hpe : p.1 = jsString env (rowGet r gcol) <;>
          simp [hpe]
      · have hnone : groups.find? (fun p =>
            decide (p.1 = jsString env (rowGet r gcol))) = none := by
          rw [List.find?_eq_none]
          intro x hx
          simp only [decide_eq_true_eq]
          intro heq
          exact hmem (List.mem_map.mpr ⟨x, hx, heq⟩)
        rw [hnone, if_neg hmem]
        simp

theorem anovaGroups_keys_fold (env : JsEnv) (target gcol : String)
    (rows : List DataRow) (acc : List (String × List ℚ)) :
    (rows.foldl (anovaStep env target gcol) acc).map (fun p => p.1) =
      (rows.filterMap (fun r =>
        if (jsToNumber env (rowGet r target)).isSome then
          some (jsString env (rowGet r gcol))
        else none)).foldl
        (fun ks k => if k ∈ ks then ks else ks ++ [k])
        (acc.map (fun p => p.1)) := by
  induction rows generalizing acc with
  | nil => rfl
  | cons r rest ih =>
      rw [List.foldl_cons, ih]
      cases hj : jsToNumber env (rowGet r target) with
      | none =>
          rw [show (anovaStep env target gcol acc r).map (fun p => p.1) =
            acc.map (fun p => p.1) from by rw [anovaStep_keys]; simp [hj]]
          simp [List.filterMap_cons, hj]
      | some v =>
          rw [show (anovaStep env target gcol acc r).map (fun p => p.1) =
            (if jsString env (rowGet r gcol) ∈ acc.map (fun p => p.1) then
              acc.map (fun p => p.1)
            else acc.map (fun p => p.1) ++ [jsString env (rowGet r gcol)])
            from by rw [anovaStep_keys]; simp [hj]]
          simp [List.filterMap_cons, hj]

theorem keyFold_nodup (l : List String) (acc : List String)
    (h : acc.Nodup) :
    (l.foldl (fun ks k => if k ∈ ks then ks else ks ++ [k]) acc).Nodup := by
  induction l generalizing acc with
  | nil => exact h
  | cons k rest ih =>
      rw [List.foldl_cons]
      by_cases hm : k ∈ acc
      · rw [if_pos hm]
        exact ih acc h
      · rw [if_neg hm]
        refine ih _ ?_
        simp [List.nodup_append, h, hm]

theorem keyFold_mem (l : List String) (acc : List String) (x : String) :
    x ∈ l.foldl (fun ks k => if k ∈ ks then ks else ks ++ [k]) acc ↔
      x ∈ acc ∨ x ∈ l := by
  induction l generalizing acc with
  | nil => simp
  | cons k rest ih =>
      rw [List.foldl_cons]
      by_cases hm : k ∈ acc
      · rw [if_pos hm, ih]
        constructor
        · rintro (h1 | h1)
          · exact Or.inl h1
          · exact Or.inr (by simp [h1])
        · rintro (h1 | h1)
          · exact Or.inl h1
          · rcases (by simpa using h1 : x = k ∨ x ∈ rest) with h2 | h2
            · exact Or.inl (h2 ▸ hm)
            · exact Or.inr h2
      · rw [if_neg hm, ih]
        constructor
        · rintro (h1 | h1)
          · rcases (by simpa using h1 : x ∈ acc ∨ x = k) with h2 | h2
            · exact Or.inl h2
            · exact Or.inr (by simp [h2])
          · exact Or.inr (by simp [h1])
        · rintro (h1 | h1)
          · exact Or.inl (by simp [h1])
          · rcases (by simpa using h1 : x = k ∨ x ∈ rest) with h2 | h2
            · exact Or.inl (by simp [h2])
            · exact Or.inr h2

theorem keyFold_length (l : List String) :
    (l.foldl (fun ks k => if k ∈ ks then ks else ks ++ [k]) []).length =
      l.dedup.length := by
  have hnd1 := keyFold_nodup l [] (by simp)
  have hnd2 := List.nodup_dedup l
  have hfin : (l.foldl (fun ks k => if k ∈ ks then ks else ks ++ [k])
      []).toFinset = l.dedup.toFinset := by
    ext x
    simp only [List.mem_toFinset, keyFold_mem, List.mem_dedup]
    simp
  calc (l.foldl (fun ks k => if k ∈ ks then ks else ks ++ [k]) []).length
      = (l.foldl (fun ks k => if k ∈ ks then ks else ks ++ [k])
          []).toFinset.card := (List.toFinset_card_of_nodup hnd1).symm
    _ = l.dedup.toFinset.card := by rw [hfin]
    _ = l.dedup.length := List.toFinset_card_of_nodup hnd2

/-- The number of ANOVA groups is the number of distinct canonical
group keys among the rows with a numeric target value. -/
theorem anovaGroups_length (env : JsEnv) (ds : DataSet)
    (target gcol : String) :
    (anovaGroups env ds target gcol).length =
      ((anovaKeyList env ds target gcol).dedup).length := by
  have h := congrArg List.length
    (anovaGroups_keys_fold env target gcol ds.rows [])
  rw [List.length_map] at h
  rw [anovaGroups, h]
  rw [show (([] : List (String × List ℚ)).map (fun p => p.1)) = [] from rfl]
  rw [anovaKeyList, keyFold_length]

/-- C5 (amended): performHypothesisTest signals an error exactly when a
two-sample test sees fewer than 2 usable numeric observations in either
sample (an absent column contributes none), a chi-square call lacks a
truthy second column name, or an ANOVA call lacks a truthy group column
name or has fewer than 2 distinct groups among rows with numeric target
values.  Contrary to the claim, a column absent from the dataset does
NOT by itself signal an error for chi-square: its cells read as the
text undefined. -/
theorem C5_error_characterization (env : JsEnv) (ds : DataSet)
    (params : TestParams) :
    testOk (performHypothesisTest env ds params) = false ↔
      hypothesisError env ds params := by
  cases hty : params.type with
  | ttest =>
      simp only [performHypothesisTest, hypothesisError, hty]
      by_cases h : (getNumData env ds params.targetColumn).length < 2 ∨
          (secondNumData env ds params.secondColumn).length < 2
      · rw [if_pos h]
        simp [testOk, h]
      · rw [if_neg h]
        simp [testOk, h]
  | ztest =>
      simp only [performHypothesisTest, hypothesisError, hty]
      by_cases h : (getNumData env ds params.targetColumn).length < 2 ∨
          (secondNumData env ds params.secondColumn).length < 2
      · rw [if_pos h]
        simp [testOk, h]
      · rw [if_neg h]
        simp [testOk, h]
  | chiSquare =>
      simp only [performHypothesisTest, hypothesisError, hty]
      by_cases h : colPresent params.secondColumn
      · simp [h, testOk]
      · simp [(by simpa using h : colPresent params.secondColumn = false),
          testOk]
  | anova =>
      simp only [performHypothesisTest, hypothesisError, hty]
      by_cases h1 : colPresent params.groupColumn
      · by_cases h2 : (anovaGroups env ds params.targetColumn
            ((params.groupColumn).getD "")).length < 2
        · simp only [h1, Bool.not_true, Bool.false_eq_true, if_false,
            if_pos h2]
          simp [testOk, h1]
          rw [← anovaGroups_length]
          exact h2
        · simp only [h1, Bool.not_true, Bool.false_eq_true, if_false,
            if_neg h2]
          simp [testOk, h1]
          rw [← anovaGroups_length]
          omega
      · have h1f : colPresent params.groupColumn = false := by simpa using h1
        simp [h1f, testOk]

/-- Counterexample to C5 as stated: the chi-square target column zzz is
absent from the dataset, yet the call returns a TestResult instead of
signalling an error (the absent column reads as the text undefined). -/
theorem C5_counterexample :
    testOk (performHypothesisTest envDemo dsTwoCats
      { type := TestType.chiSquare, targetColumn := "zzz",
        secondColumn := some "a" }) = true ∧
    "zzz" ∉ dsTwoCats.headers := by
  constructor <;> decide

end DataEngine
